import Mathlib

/-!
Verification development for the retrieval-augmented QA platform
(ingestion pipeline + query orchestrator).  The Python sources are
shallowly embedded: pure functions become Lean functions, `while` loops
become fuel-indexed recursions (`none` models divergence), machine
floats that only flow through comparisons and clamping are modelled as
exact rationals — except in the lenient numeric parser of the risk
helpers, where CPython float conversion is modelled with correct
rounding to binary64 including overflow to infinity and the uncaught
`OverflowError` paths — and external collaborators (HTTP backends, the
PII analyzer, the reranker model, the LLM, the simulator) are passed in
as explicit data.  Hashes (`hashlib.sha1` / `hashlib.sha256`) are
implemented bit-for-bit over UTF-8 byte lists.
-/

/-! ## Python string and list primitives -/

/-- Worker for `pyWords`: accumulate the current word (reversed) while
scanning the character list. -/
def pyWordsAux (cur : List Char) : List Char → List String
  | [] => if cur.isEmpty then [] else [⟨cur.reverse⟩]
  | c :: rest =>
    if c.isWhitespace then
      if cur.isEmpty then pyWordsAux [] rest
      else ⟨cur.reverse⟩ :: pyWordsAux [] rest
    else pyWordsAux (c :: cur) rest

/-- Python `str.split()` with no arguments: split on whitespace runs,
discarding empty fragments. -/
def pyWords (s : String) : List String := pyWordsAux [] s.data

/-- Python `str.strip()`: drop leading and trailing whitespace. -/
def pyStrip (s : String) : String :=
  ⟨((s.data.dropWhile Char.isWhitespace).reverse.dropWhile Char.isWhitespace).reverse⟩

/-- Python `str.lower()` (ASCII fold; the source only lowercases ASCII
keywords and config values). -/
def pyLower (s : String) : String := ⟨s.data.map Char.toLower⟩

/-- Python slice `xs[a:b]` for integer indices, including the semantics of
negative indices (counting from the end) and out-of-range clamping. -/
def pySlice {α : Type} (xs : List α) (a b : Int) : List α :=
  let n : Int := Int.ofNat xs.length
  let lo : Int := if a < 0 then max 0 (n + a) else min a n
  let hi : Int := if b < 0 then max 0 (n + b) else min b n
  (xs.drop lo.toNat).take (hi - lo).toNat

/-- Does `needle` occur as a contiguous sublist of the second argument? -/
def sublistAt (needle : List Char) : List Char → Bool
  | [] => needle.isEmpty
  | c :: rest => needle.isPrefixOf (c :: rest) || sublistAt needle rest

/-- Python `needle in haystack` on strings (substring containment). -/
def pyIn (needle haystack : String) : Bool := sublistAt needle.data haystack.data

/-- Insert into a sorted list, before the first element `x` is `le` to:
the helper of the stable sort below. -/
def insertSorted {α : Type} (le : α → α → Bool) (x : α) : List α → List α
  | [] => [x]
  | y :: ys => if le x y then x :: y :: ys else y :: insertSorted le x ys

/-- Stable insertion sort.  Python's `sorted`/`list.sort` are stable, and a
stable sort w.r.t. a total preorder has a unique result, so this models
them exactly. -/
def stableSort {α : Type} (le : α → α → Bool) : List α → List α
  | [] => []
  | x :: xs => insertSorted le x (stableSort le xs)

/-- First-occurrence association lookup (Python `dict.get` over insertion
order; dict keys are unique so the first hit is the binding). -/
def assocLookup {β : Type} : List (String × β) → String → Option β
  | [], _ => none
  | (k, v) :: rest, key => if k = key then some v else assocLookup rest key

/-- Order-preserving deduplication of strings (`dict.fromkeys`). -/
def dedupKeepFirstAux (seen : List String) : List String → List String
  | [] => []
  | x :: rest =>
    if x ∈ seen then dedupKeepFirstAux seen rest
    else x :: dedupKeepFirstAux (x :: seen) rest

/-- `list(dict.fromkeys(xs))`: distinct values in first-occurrence order. -/
def dedupKeepFirst (xs : List String) : List String := dedupKeepFirstAux [] xs

/-- Python byte-wise string order (code-point lexicographic `<=`). -/
def charListLe : List Char → List Char → Bool
  | [], _ => true
  | _ :: _, [] => false
  | a :: as, b :: bs =>
    if a.toNat < b.toNat then true
    else if b.toNat < a.toNat then false
    else charListLe as bs

/-- String `<=` by code points, as Python compares `str`. -/
def strLe (a b : String) : Bool := charListLe a.data b.data

/-! ## SHA-1 and SHA-256 (`hashlib`), over UTF-8 byte lists -/

/-- 2^32, the word modulus of both hash functions. -/
def M32 : Nat := 4294967296

/-- UTF-8 encoding of one scalar value. -/
def charUtf8 (c : Char) : List Nat :=
  let n := c.toNat
  if n < 128 then [n]
  else if n < 2048 then [192 + n / 64, 128 + n % 64]
  else if n < 65536 then [224 + n / 4096, 128 + (n / 64) % 64, 128 + n % 64]
  else [240 + n / 262144, 128 + (n / 4096) % 64, 128 + (n / 64) % 64, 128 + n % 64]

/-- `str.encode("utf-8")` as a list of byte values. -/
def utf8Bytes (s : String) : List Nat := s.data.flatMap charUtf8

/-- 32-bit rotate left. -/
def rotl32 (x k : Nat) : Nat := ((x <<< k) % M32) ||| (x >>> (32 - k))

/-- 32-bit rotate right. -/
def rotr32 (x k : Nat) : Nat := (x >>> k) ||| ((x <<< (32 - k)) % M32)

/-- 32-bit complement. -/
def not32 (x : Nat) : Nat := 4294967295 ^^^ x

/-- Merkle–Damgård padding shared by SHA-1 and SHA-256: append `0x80`,
zero-fill to 56 mod 64, then the message bit length as 8 big-endian
bytes. -/
def padBytes (msg : List Nat) : List Nat :=
  let bitLen := 8 * msg.length
  let padZeros := (119 - msg.length % 64) % 64
  msg ++ [128] ++ List.replicate padZeros 0 ++
    (List.range 8).map (fun i => (bitLen >>> (8 * (7 - i))) % 256)

/-- Big-endian 32-bit words from bytes. -/
def beWords : List Nat → List Nat
  | b0 :: b1 :: b2 :: b3 :: rest => (((b0 * 256 + b1) * 256 + b2) * 256 + b3) :: beWords rest
  | _ => []

/-- Split into 64-byte blocks, counter-indexed so it reduces in the
kernel (padded input length is always a multiple of 64). -/
def chunk64Aux : Nat → List Nat → List (List Nat)
  | 0, _ => []
  | k + 1, l => l.take 64 :: chunk64Aux k (l.drop 64)

/-- 64-byte blocks of a padded message. -/
def chunk64 (l : List Nat) : List (List Nat) := chunk64Aux (l.length / 64) l

/-- SHA-1 message schedule: 80 words. -/
def sha1W (block : List Nat) : List Nat :=
  (List.range 64).foldl
    (fun w j =>
      let i := j + 16
      w ++ [rotl32 ((w.getD (i - 3) 0) ^^^ (w.getD (i - 8) 0) ^^^
        (w.getD (i - 14) 0) ^^^ (w.getD (i - 16) 0)) 1])
    (beWords block)

/-- One SHA-1 compression round. -/
def sha1Round (st : Nat × Nat × Nat × Nat × Nat) (iw : Nat × Nat) :
    Nat × Nat × Nat × Nat × Nat :=
  let (a, b, c, d, e) := st
  let (i, w) := iw
  let f :=
    if i < 20 then (b &&& c) ||| ((not32 b) &&& d)
    else if i < 40 then b ^^^ c ^^^ d
    else if i < 60 then (b &&& c) ||| (b &&& d) ||| (c &&& d)
    else b ^^^ c ^^^ d
  let k :=
    if i < 20 then 1518500249
    else if i < 40 then 1859775393
    else if i < 60 then 2400959708
    else 3395469782
  let temp := (rotl32 a 5 + f + e + k + w) % M32
  (temp, a, rotl32 b 30, c, d)

/-- SHA-1 block step. -/
def sha1Block (h : Nat × Nat × Nat × Nat × Nat) (block : List Nat) :
    Nat × Nat × Nat × Nat × Nat :=
  let (h0, h1, h2, h3, h4) := h
  let (a, b, c, d, e) := (sha1W block).enum.foldl sha1Round h
  ((h0 + a) % M32, (h1 + b) % M32, (h2 + c) % M32, (h3 + d) % M32, (h4 + e) % M32)

/-- Lowercase hex digit. -/
def hexChar (d : Nat) : Char := Char.ofNat (if d < 10 then 48 + d else 87 + d)

/-- 8 lowercase hex digits of a 32-bit word. -/
def hex8 (x : Nat) : List Char :=
  (List.range 8).map (fun i => hexChar ((x >>> (4 * (7 - i))) % 16))

/-- `hashlib.sha1(msg).hexdigest()` over a byte list. -/
def sha1Hex (msg : List Nat) : String :=
  let (h0, h1, h2, h3, h4) :=
    (chunk64 (padBytes msg)).foldl sha1Block
      (1732584193, 4023233417, 2562383102, 271733878, 3285377520)
  ⟨hex8 h0 ++ hex8 h1 ++ hex8 h2 ++ hex8 h3 ++ hex8 h4⟩

/-- The 64 SHA-256 round constants. -/
def sha256K : List Nat :=
  [1116352408, 1899447441, 3049323471, 3921009573, 961987163, 1508970993, 2453635748, 2870763221,
   3624381080, 310598401, 607225278, 1426881987, 1925078388, 2162078206, 2614888103, 3248222580,
   3835390401, 4022224774, 264347078, 604807628, 770255983, 1249150122, 1555081692, 1996064986,
   2554220882, 2821834349, 2952996808, 3210313671, 3336571891, 3584528711, 113926993, 338241895,
   666307205, 773529912, 1294757372, 1396182291, 1695183700, 1986661051, 2177026350, 2456956037,
   2730485921, 2820302411, 3259730800, 3345764771, 3516065817, 3600352804, 4094571909, 275423344,
   430227734, 506948616, 659060556, 883997877, 958139571, 1322822218, 1537002063, 1747873779,
   1955562222, 2024104815, 2227730452, 2361852424, 2428436474, 2756734187, 3204031479, 3329325298]

/-- SHA-256 message schedule: 64 words. -/
def sha256W (block : List Nat) : List Nat :=
  (List.range 48).foldl
    (fun w j =>
      let i := j + 16
      let w15 := w.getD (i - 15) 0
      let w2 := w.getD (i - 2) 0
      let s0 := rotr32 w15 7 ^^^ rotr32 w15 18 ^^^ (w15 >>> 3)
      let s1 := rotr32 w2 17 ^^^ rotr32 w2 19 ^^^ (w2 >>> 10)
      w ++ [((w.getD (i - 16) 0) + s0 + (w.getD (i - 7) 0) + s1) % M32])
    (beWords block)

/-- The eight 32-bit working registers of SHA-256. -/
structure Sha256State where
  a : Nat
  b : Nat
  c : Nat
  d : Nat
  e : Nat
  f : Nat
  g : Nat
  h : Nat

/-- One SHA-256 compression round for a `(constant, schedule-word)` pair. -/
def sha256Round (st : Sha256State) (kw : Nat × Nat) : Sha256State :=
  let s1 := rotr32 st.e 6 ^^^ rotr32 st.e 11 ^^^ rotr32 st.e 25
  let ch := (st.e &&& st.f) ^^^ ((not32 st.e) &&& st.g)
  let t1 := (st.h + s1 + ch + kw.1 + kw.2) % M32
  let s0 := rotr32 st.a 2 ^^^ rotr32 st.a 13 ^^^ rotr32 st.a 22
  let mj := (st.a &&& st.b) ^^^ (st.a &&& st.c) ^^^ (st.b &&& st.c)
  let t2 := (s0 + mj) % M32
  ⟨(t1 + t2) % M32, st.a, st.b, st.c, (st.d + t1) % M32, st.e, st.f, st.g⟩

/-- SHA-256 block step. -/
def sha256Block (h : Sha256State) (block : List Nat) : Sha256State :=
  let w := sha256W block
  let r := (sha256K.zip w).foldl sha256Round h
  ⟨(h.a + r.a) % M32, (h.b + r.b) % M32, (h.c + r.c) % M32, (h.d + r.d) % M32,
   (h.e + r.e) % M32, (h.f + r.f) % M32, (h.g + r.g) % M32, (h.h + r.h) % M32⟩

/-- `hashlib.sha256(msg).hexdigest()` over a byte list. -/
def sha256Hex (msg : List Nat) : String :=
  let r := (chunk64 (padBytes msg)).foldl sha256Block
    ⟨1779033703, 3144134277, 1013904242, 2773480762, 1359893119, 2600822924, 528734635, 1541459225⟩
  ⟨hex8 r.a ++ hex8 r.b ++ hex8 r.c ++ hex8 r.d ++ hex8 r.e ++ hex8 r.f ++ hex8 r.g ++ hex8 r.h⟩

/-! ## JSON values and `json.dumps(..., sort_keys=True)`

The planner emits JSON specs (`json.loads` output: all object keys are
strings).  Numeric literals are modelled as integers, which covers every
value the claims exercise. -/

/-- A JSON value. -/
inductive JVal
  | null
  | jbool (b : Bool)
  | jint (n : Int)
  | jstr (s : String)
  | jarr (xs : List JVal)
  | jobj (fields : List (String × JVal))

/-- 4 lowercase hex digits (for `\uXXXX` escapes). -/
def hex4 (n : Nat) : List Char :=
  (List.range 4).map (fun i => hexChar ((n >>> (4 * (3 - i))) % 16))

/-- Per-character escaping of Python's `json.dumps` default encoder
(`ensure_ascii=True`): shorthand escapes, `\uXXXX` for other control or
non-ASCII characters, surrogate pairs beyond the BMP. -/
def jsonEscapeChar (c : Char) : List Char :=
  let n := c.toNat
  if c = '"' then ['\\', '"']
  else if c = '\\' then ['\\', '\\']
  else if n = 8 then ['\\', 'b']
  else if n = 9 then ['\\', 't']
  else if n = 10 then ['\\', 'n']
  else if n = 12 then ['\\', 'f']
  else if n = 13 then ['\\', 'r']
  else if n < 32 ∨ n > 126 then
    if n < 65536 then '\\' :: 'u' :: hex4 n
    else
      let m := n - 65536
      ('\\' :: 'u' :: hex4 (55296 + m / 1024)) ++ ('\\' :: 'u' :: hex4 (56320 + m % 1024))
  else [c]

/-- JSON string literal with quotes. -/
def jsonQuote (s : String) : String := ⟨'"' :: s.data.flatMap jsonEscapeChar ++ ['"']⟩

/-- Sort dumped object fields by key, byte-lexicographically
(`sort_keys=True`; dict keys are unique so ties cannot occur). -/
def sortDumpedFields (fs : List (String × String)) : List (String × String) :=
  stableSort (fun a b => strLe a.1 b.1) fs

mutual

/-- `json.dumps(v, sort_keys=True)` with the default separators
`(", ", ": ")`. -/
def jdump : JVal → String
  | .null => "null"
  | .jbool b => if b then "true" else "false"
  | .jint n => toString n
  | .jstr s => jsonQuote s
  | .jarr xs => "[" ++ String.intercalate ", " (jdumpList xs) ++ "]"
  | .jobj fs =>
    "\x7b" ++ String.intercalate ", "
      ((sortDumpedFields (jdumpFields fs)).map (fun kv => jsonQuote kv.1 ++ ": " ++ kv.2)) ++ "\x7d"

/-- Dump every element of an array. -/
def jdumpList : List JVal → List String
  | [] => []
  | x :: xs => jdump x :: jdumpList xs

/-- Dump every field value of an object, keeping its key. -/
def jdumpFields : List (String × JVal) → List (String × String)
  | [] => []
  | (k, v) :: xs => (k, jdump v) :: jdumpFields xs

end

/-- Python `dict.get(key)` over an object's fields. -/
def jobjGet : List (String × JVal) → String → Option JVal
  | [], _ => none
  | (k, v) :: rest, key => if k = key then some v else jobjGet rest key

/-- Python `d[key] = v`: replace the binding in place, or append. -/
def jobjSet : List (String × JVal) → String → JVal → List (String × JVal)
  | [], key, v => [(key, v)]
  | (k, w) :: rest, key, v =>
    if k = key then (k, v) :: rest else (k, w) :: jobjSet rest key v

/-- Projection of an object's `trials` field when it is an integer
literal (used to state properties of `bound_trials`). -/
def trialsOf (spec : List (String × JVal)) : Option Int :=
  match jobjGet spec "trials" with
  | some (.jint n) => some n
  | _ => none

/-! ## Chunker (`services/data-tunnel/pipeline/chunk.py`)

`_word_chunks` is a `while start < len(words)` loop.  It is embedded with
an explicit fuel argument; `none` models a non-terminating execution.
`word_chunks` runs the loop with fuel `words.length + 1`, which the
termination theorem shows suffices whenever `0 ≤ overlap < max_tokens`. -/

/-- Loop of `_word_chunks`: at state `start`, take
`words[start:min(start+max_tokens, len)]`; stop if the window reached the
end, else continue from `max(0, end - overlap)`. -/
def word_chunks_aux (words : List String) (max_tokens overlap : Int) :
    Nat → Int → Option (List (List String))
  | 0, _ => none
  | fuel + 1, start =>
    if start < (words.length : Int) then
      let stop : Int := min (start + max_tokens) (words.length : Int)
      let chunk := pySlice words start stop
      if stop = (words.length : Int) then
        some [chunk]
      else
        match word_chunks_aux words max_tokens overlap fuel (max 0 (stop - overlap)) with
        | none => none
        | some rest => some (chunk :: rest)
    else
      some []

/-- `_word_chunks(words, max_tokens, overlap)` with the canonical fuel. -/
def word_chunks (words : List String) (max_tokens overlap : Int) :
    Option (List (List String)) :=
  word_chunks_aux words max_tokens overlap (words.length + 1) 0

/-- Chunking strategy mapping as read from config/override; only the two
keys the code reads, each optional with the source's defaults 700/80. -/
structure ChunkStrategy where
  max_tokens : Option Int
  overlap_tokens : Option Int
deriving DecidableEq

/-- `semantic_chunks(text, strategy_cfg)`: whitespace-tokenize, window the
words, and re-join each window with single spaces. -/
def semantic_chunks (text : String) (cfg : ChunkStrategy) : Option (List String) :=
  let mt := cfg.max_tokens.getD 700
  let ov := cfg.overlap_tokens.getD 80
  (word_chunks (pyWords text) mt ov).map (fun cs => cs.map (String.intercalate " "))

/-- Ghost variant of `word_chunks_aux` that records the `(start, stop)`
index pair of every window instead of its contents. -/
def chunk_spans_aux (n : Nat) (max_tokens overlap : Int) :
    Nat → Int → Option (List (Int × Int))
  | 0, _ => none
  | fuel + 1, start =>
    if start < (n : Int) then
      let stop : Int := min (start + max_tokens) (n : Int)
      if stop = (n : Int) then
        some [(start, stop)]
      else
        match chunk_spans_aux n max_tokens overlap fuel (max 0 (stop - overlap)) with
        | none => none
        | some rest => some ((start, stop) :: rest)
    else
      some []

/-- Spans of `word_chunks` at canonical fuel. -/
def chunk_spans (n : Nat) (max_tokens overlap : Int) : Option (List (Int × Int)) :=
  chunk_spans_aux n max_tokens overlap (n + 1) 0

/-! ## Risk helpers (`services/orchestrator/risk.py`) -/

/-- Characters the cleaning regex `[^0-9eE\.\-+]` keeps (the preceding
`replace(",", "")` is subsumed: a comma is not kept either). -/
def numKeepChar (c : Char) : Bool :=
  c.isDigit || c = 'e' || c = 'E' || c = '.' || c = '-' || c = '+'

/-- The explicit reject set of `_parse_number`. -/
def badCleaned : List String := ["+", "-", ".", "+.", "-."]

/-- Decimal digits to a natural number. -/
def digitsToNat (ds : List Char) : Nat := ds.foldl (fun a c => a * 10 + (c.toNat - 48)) 0

/-- CPython `float` semantics: a finite binary64 value carried as its
exact rational value, or an infinity (NaN is unreachable: the cleaned
strings cannot spell `nan`). -/
inductive PyFloat
  | finite (q : ℚ)
  | inf
  | ninf
deriving DecidableEq

/-- The uncaught exception the risk helpers can raise:
`OverflowError`, from `float(huge_int)` or `int(float("inf"))`. -/
inductive PyErr
  | overflowError
deriving DecidableEq

/-- Binary digit count of a value below `2 ^ 64`, by constant-depth
binary descent. -/
def bitLen64 (n : Nat) : Nat :=
  let p1 := if n < 4294967296 then (n, 0) else (n >>> 32, 32)
  let p2 := if p1.1 < 65536 then p1 else (p1.1 >>> 16, p1.2 + 16)
  let p3 := if p2.1 < 256 then p2 else (p2.1 >>> 8, p2.2 + 8)
  let p4 := if p3.1 < 16 then p3 else (p3.1 >>> 4, p3.2 + 4)
  let p5 := if p4.1 < 4 then p4 else (p4.1 >>> 2, p4.2 + 2)
  let p6 := if p5.1 < 2 then p5 else (p5.1 >>> 1, p5.2 + 1)
  if p6.1 = 0 then p6.2 else p6.2 + 1

/-- Binary digit count, fuel-indexed and peeling 64 bits per step so the
recursion stays shallow enough to evaluate on very large literals
(`fuel = n / 64 + 1` always suffices). -/
def bitLenAux : Nat → Nat → Nat → Nat
  | 0, _, acc => acc
  | fuel + 1, n, acc =>
    if n < 18446744073709551616 then acc + bitLen64 n
    else bitLenAux fuel (n >>> 64) (acc + 64)

/-- Binary digit count: `2 ^ (bitLen n - 1) ≤ n < 2 ^ bitLen n` for
positive `n`, and `bitLen 0 = 0`. -/
def bitLen (n : Nat) : Nat := bitLenAux (n / 64 + 1) n 0

/-- `2 ^ k`, computed as a left shift so it evaluates fast even on the
large exponents binary64 rounding produces. -/
def pow2 (k : Nat) : Nat := 1 <<< k

/-- Binary exponentiation accumulator (`fuel = e` always suffices since
the exponent halves each step, so the recursion stays shallow). -/
def powSqAux : Nat → Nat → Nat → Nat → Nat
  | 0, _, _, acc => acc
  | fuel + 1, b, e, acc =>
    if e = 0 then acc
    else powSqAux fuel (b * b) (e / 2) (if e % 2 = 1 then acc * b else acc)

/-- `10 ^ e`, by binary exponentiation so it evaluates fast on the large
exponents of overflowing float literals. -/
def pow10 (e : Nat) : Nat := powSqAux e 10 e 1

/-- Decide `2 ^ e ≤ a / b` for naturals `a`, `b > 0` and an integer
exponent. -/
def intPow2Le (e : Int) (a b : Nat) : Bool :=
  if 0 ≤ e then b * pow2 e.toNat ≤ a else b ≤ a * pow2 (-e).toNat

/-- Correct rounding of an exact rational to IEEE-754 binary64
(round-to-nearest, ties-to-even), the conversion CPython applies in
`float(int)` and `float(str)`: find the binade `2 ^ e ≤ |q| < 2 ^ (e+1)`,
quantise to the ulp `2 ^ t` (`t = e - 52` for normal numbers, `2 ^ -1074`
in the subnormal range), round the significand half-to-even, and
overflow to an infinity at magnitude `2 ^ 1024` and beyond (so exactly
from `2 ^ 1024 - 2 ^ 970` upward). -/
def roundToDouble (q : ℚ) : PyFloat :=
  if q = 0 then .finite 0
  else
    let neg := q < 0
    let a := q.num.natAbs
    let b := q.den
    let e0 : Int := (bitLen a : Int) - bitLen b
    let e : Int := if intPow2Le e0 a b then e0 else e0 - 1
    let t : Int := if e < -1022 then -1074 else e - 52
    let num2 : Nat := if t ≤ 0 then a * pow2 (-t).toNat else a
    let den2 : Nat := if t ≤ 0 then b else b * pow2 t.toNat
    let m0 := num2 / den2
    let r := num2 % den2
    let m := if 2 * r < den2 then m0
      else if den2 < 2 * r then m0 + 1
      else if m0 % 2 = 0 then m0 else m0 + 1
    let overflow := if 1024 ≤ t then true else decide (pow2 (1024 - t).toNat ≤ m)
    if overflow then (if neg then .ninf else .inf)
    else
      let mag : ℚ :=
        if 0 ≤ t then ((m * pow2 t.toNat : Nat) : ℚ)
        else Rat.divInt (m : Int) ((pow2 (-t).toNat : Nat) : Int)
      .finite (if neg then -mag else mag)

/-- The float-literal grammar CPython accepts on a string of characters
drawn from `[0-9eE.+-]`: optional sign, digits with an optional point,
optional exponent; the whole string must parse.  Returns the exact
decimal value; the caller rounds it to binary64 with `roundToDouble`,
as CPython's correctly-rounded `strtod` does. -/
def pyFloat (cs : List Char) : Option ℚ :=
  let sgnRest : Int × List Char :=
    match cs with
    | '+' :: r => (1, r)
    | '-' :: r => (-1, r)
    | r => (1, r)
  let sgn := sgnRest.1
  let cs1 := sgnRest.2
  let ip := cs1.takeWhile Char.isDigit
  let cs2 := cs1.dropWhile Char.isDigit
  let fpRest : List Char × List Char :=
    match cs2 with
    | '.' :: r => (r.takeWhile Char.isDigit, r.dropWhile Char.isDigit)
    | r => ([], r)
  let fp := fpRest.1
  let cs3 := fpRest.2
  if ip.isEmpty && fp.isEmpty then none
  else
    let mantNum : Int := sgn * (digitsToNat (ip ++ fp) : Int)
    let fl := fp.length
    match cs3 with
    | [] => some (Rat.divInt mantNum ((pow10 fl : Nat) : Int))
    | e :: r =>
      if e = 'e' ∨ e = 'E' then
        let esgnRest : Bool × List Char :=
          match r with
          | '+' :: rr => (true, rr)
          | '-' :: rr => (false, rr)
          | rr => (true, rr)
        let ed := esgnRest.2.takeWhile Char.isDigit
        let r2 := esgnRest.2.dropWhile Char.isDigit
        if ed.isEmpty || !r2.isEmpty then none
        else
          let ev := digitsToNat ed
          if esgnRest.1 then some (Rat.divInt (mantNum * ((pow10 ev : Nat) : Int)) ((pow10 fl : Nat) : Int))
          else some (Rat.divInt mantNum ((pow10 (fl + ev) : Nat) : Int))
      else none

/-- The string branch of `_parse_number`: strip, drop separators and
non-numeric characters, reject the degenerate leftovers, then
`float(cleaned)` — which never raises here (`ValueError` is caught and
becomes `None`): an overflowing literal such as `"1e999"` saturates to
an infinity, as `roundToDouble` models. -/
def parse_number_str (s : String) : Option PyFloat :=
  let cleaned := pyStrip s
  if cleaned = "" then none
  else
    let kept : List Char := cleaned.data.filter numKeepChar
    let ks : String := ⟨kept⟩
    if ks = "" ∨ ks ∈ badCleaned then none
    else
      match pyFloat kept with
      | none => none
      | some q => some (roundToDouble q)

/-- `_parse_number(value)`: `None`/collections reject, bools and numbers
coerce, strings go through the lenient cleaner.  `float(value)` on an
integer whose rounded magnitude reaches `2 ^ 1024` raises an uncaught
`OverflowError` (there is no `try` around that branch), modelled as
`.error`. -/
def parse_number : JVal → Except PyErr (Option PyFloat)
  | .null => .ok none
  | .jbool b => .ok (some (.finite (if b then 1 else 0)))
  | .jint n =>
    match roundToDouble (n : ℚ) with
    | .finite q => .ok (some (.finite q))
    | .inf => .error .overflowError
    | .ninf => .error .overflowError
  | .jstr s => .ok (parse_number_str s)
  | .jarr _ => .ok none
  | .jobj _ => .ok none

/-- Does `_parse_number` raise (propagate `OverflowError`)? -/
def parse_number_raises (v : JVal) : Bool :=
  match parse_number v with
  | .error _ => true
  | .ok _ => false

/-- The value of a non-raising `_parse_number` call (`none` when it
raised). -/
def parse_number_value (v : JVal) : Option (Option PyFloat) :=
  match parse_number v with
  | .ok x => some x
  | .error _ => none

/-- Python `int(finite_float)`: truncation toward zero. -/
def ratTruncToInt (q : ℚ) : Int := Int.tdiv q.num (q.den : Int)

/-- `_coerce_int(value, default, field)`: parse leniently; `None` falls
back to the default; a finite float truncates (`int(float)` cannot raise
`TypeError`/`ValueError`, so the `except` clause is dead); `int(inf)`
raises `OverflowError`, which the `except (TypeError, ValueError)`
clause does not catch, so it propagates. -/
def coerce_int (value : JVal) (default : Int) : Except PyErr Int :=
  match parse_number value with
  | .error e => .error e
  | .ok none => .ok default
  | .ok (some (.finite q)) => .ok (ratTruncToInt q)
  | .ok (some .inf) => .error .overflowError
  | .ok (some .ninf) => .error .overflowError

/-- `bound_trials(spec, max_trials)`: copy the spec and clamp `trials`
into `min(max_trials, max(100, parsed))`; an `OverflowError` from the
coercion propagates out of the function. -/
def bound_trials (spec : List (String × JVal)) (max_trials : Int) :
    Except PyErr (List (String × JVal)) :=
  match coerce_int ((jobjGet spec "trials").getD JVal.null) max_trials with
  | .error e => .error e
  | .ok trials => .ok (jobjSet spec "trials" (JVal.jint (min max_trials (max 100 trials))))

/-- The integer `trials` value of a successful `bound_trials` run
(`none` when the call raised or left no integer `trials` field). -/
def bound_trials_trials (spec : List (String × JVal)) (max_trials : Int) : Option Int :=
  match bound_trials spec max_trials with
  | .ok fields => trialsOf fields
  | .error _ => none

/-- Does `bound_trials` raise? -/
def bound_trials_raises (spec : List (String × JVal)) (max_trials : Int) : Bool :=
  match bound_trials spec max_trials with
  | .error _ => true
  | .ok _ => false

/-- The simulator's reply as the orchestrator sees it: a JSON object that
may carry an `error` marker (`run` never throws).  The body stands for
the remaining stats payload. -/
structure SimPayload where
  error : Option String
  body : String
deriving DecidableEq

/-- `handle_query`'s risk signature: SHA-256 over the canonical dump of
`{"spec": risk_spec, "v": data_version}`. -/
def risk_signature (spec : List (String × JVal)) (data_version : String) : String :=
  sha256Hex (utf8Bytes (jdump (JVal.jobj [("spec", JVal.jobj spec), ("v", JVal.jstr data_version)])))

/-- Result of one pass through the risk branch of `handle_query`
(lines 534-564): signature, cache verdict, whether the simulator RPC was
issued, the stored/returned result, and the cache afterwards. -/
structure RiskStep where
  signature : String
  cache_hit : Bool
  sim_invoked : Bool
  result : Option SimPayload
  risk_error : Option String
  cache_out : List (String × SimPayload)
deriving DecidableEq

/-- The risk branch of `handle_query` for a dict-valued `riskSpec`:
compute the signature, consult the process-local cache (`read`), on a
miss bound the trials and invoke the simulator (its reply is the
`sim_response` argument), and store successful payloads (`store`). -/
def risk_phase (cache : List (String × SimPayload)) (spec : List (String × JVal))
    (data_version : String) (sim_response : SimPayload) : RiskStep :=
  let signature := risk_signature spec data_version
  match assocLookup cache signature with
  | some cached =>
    { signature := signature, cache_hit := true, sim_invoked := false,
      result := some cached, risk_error := none, cache_out := cache }
  | none =>
    if sim_response.error = none then
      { signature := signature, cache_hit := false, sim_invoked := true,
        result := some sim_response, risk_error := none,
        cache_out := (signature, sim_response) :: cache }
    else
      { signature := signature, cache_hit := false, sim_invoked := true,
        result := none, risk_error := sim_response.error, cache_out := cache }

/-! ## Memory store (`services/orchestrator/memory.py`) -/

/-- `approx_token_len`: 0 for empty text, else at least one whitespace
token. -/
def approx_token_len (s : String) : Nat :=
  if s = "" then 0 else max 1 (pyWords s).length

/-- One conversational turn as held in the per-thread deque. -/
structure MemoryTurn where
  user : String
  assistant : String
  tokens : Nat
deriving DecidableEq

/-- The `"User: …\nAssistant: …"` block of one turn. -/
def turnBlock (t : MemoryTurn) : String :=
  "User: " ++ t.user ++ "\nAssistant: " ++ t.assistant

/-- The collection loop of `get_recent_window`, walking the reversed
deque (`first` tracks whether `collected` is still empty, which disables
the over-budget break for the first block). -/
def collect_blocks (budget : Int) (first : Bool) : List MemoryTurn → List String
  | [] => []
  | t :: rest =>
    let blockTokens : Int := approx_token_len t.user + approx_token_len t.assistant
    if budget - blockTokens < 0 && !first then []
    else
      let budget2 := budget - blockTokens
      turnBlock t :: (if budget2 ≤ 0 then [] else collect_blocks budget2 false rest)

/-- `get_recent_window(thread_id, token_cap)` for a thread whose deque
holds `turns` (oldest first). -/
def get_recent_window (turns : List MemoryTurn) (token_cap : Int) : String :=
  if token_cap ≤ 0 then ""
  else if turns.isEmpty then ""
  else String.intercalate "\n\n" ((collect_blocks token_cap true turns.reverse).reverse)

/-! ## Planner (`services/orchestrator/planner.py`) -/

/-- The planner's structured output (`schemas.Plan`). -/
structure Plan where
  needRag : Bool
  needRisk : Bool
  ragQueries : List String
  riskSpec : Option (List (String × JVal))
  expected : List String
  confidence : ℚ

/-- The simulation keyword list `SIM_KEYWORDS`. -/
def SIM_KEYWORDS : List String :=
  ["monte carlo", "simulate", "simulation", "risk scenario", "probability distribution",
   "distribution of outcomes", "forecast scenarios", "n paths", "10 000 paths", "10000 paths",
   "simulate downside", "simulate upside", "simulate volatility", "simulate revenue range"]

/-- `force_risk`: some simulation keyword occurs in the lowered query. -/
def has_sim_keyword (user_msg : String) : Bool :=
  SIM_KEYWORDS.any (fun kw => pyIn kw (pyLower user_msg))

/-- Regex `\w`: alphanumeric or underscore (ASCII suffices here). -/
def isWordChar (c : Char) : Bool := c.isAlphanum || c = '_'

/-- The apostrophe character (code point 39). -/
def apostChar : Char := Char.ofNat 39

/-- Match a literal character sequence, returning the rest. -/
def matchLit : List Char → List Char → Option (List Char)
  | [], rest => some rest
  | _ :: _, [] => none
  | c :: lit, d :: rest => if d = c then matchLit lit rest else none

/-- Match `\s+` (the following literal starts with a non-space, so greedy
matching needs no backtracking). -/
def matchWs1 : List Char → Option (List Char)
  | [] => none
  | c :: rest => if c.isWhitespace then some (rest.dropWhile Char.isWhitespace) else none

/-- Trailing `\b` after a match ending in a word character. -/
def boundaryAfter : List Char → Bool
  | [] => true
  | c :: _ => !isWordChar c

/-- One alternative of `\b(what\s+is|what's|define|explain)\b` matched at
the current position. -/
def defAltAt (cs : List Char) : Bool :=
  (match matchLit ['w', 'h', 'a', 't'] cs with
   | some rest =>
     (match matchWs1 rest with
      | some rest2 =>
        (match matchLit ['i', 's'] rest2 with
         | some rest3 => boundaryAfter rest3
         | none => false)
      | none => false)
   | none => false)
  || (match matchLit ['w', 'h', 'a', 't', apostChar, 's'] cs with
      | some rest => boundaryAfter rest
      | none => false)
  || (match matchLit ['d', 'e', 'f', 'i', 'n', 'e'] cs with
      | some rest => boundaryAfter rest
      | none => false)
  || (match matchLit ['e', 'x', 'p', 'l', 'a', 'i', 'n'] cs with
      | some rest => boundaryAfter rest
      | none => false)

/-- `re.search` for the definitional pattern: try every position whose
predecessor satisfies the leading `\b`. -/
def defSearch : Option Char → List Char → Bool
  | _, [] => false
  | prev, c :: rest =>
    ((match prev with
      | none => true
      | some p => !isWordChar p) && defAltAt (c :: rest))
    || defSearch (some c) rest

/-- `_looks_definitional(text)`: the pattern matches the lowered text. -/
def looks_definitional (text : String) : Bool :=
  defSearch none (pyLower text).data

/-- `_default_plan()`. -/
def default_plan : Plan :=
  { needRag := false, needRisk := false, ragQueries := [], riskSpec := none,
    expected := ["summary"], confidence := 0 }

/-- Post-processing of a successfully parsed planner reply: clamp the
confidence, force `needRisk := false` for definitional queries without
simulation keywords, force `needRisk := true` when a keyword is present. -/
def plan_post (user_msg : String) (p : Plan) : Plan :=
  let force_risk := has_sim_keyword user_msg
  let p1 := { p with confidence := max 0 (min 1 p.confidence) }
  let p2 := if !force_risk && looks_definitional user_msg then { p1 with needRisk := false } else p1
  if force_risk then { p2 with needRisk := true } else p2

/-- `plan(user_msg, …)` as a function of what the LLM answered: `none`
models a reply that failed JSON/validation parsing (the default plan is
returned), `some p` a parsed `Plan`. -/
def planner_plan (user_msg : String) (llm_reply : Option Plan) : Plan :=
  match llm_reply with
  | none => default_plan
  | some p => plan_post user_msg p

/-! ## Hybrid retriever (`services/rag/retriever.py`) -/

/-- The metadata keys the retriever reads. -/
structure RMeta where
  source : Option String
  filename : Option String
  original_basename : Option String
  object_suffix : Option String
deriving DecidableEq

/-- `RetrievedDocument`. -/
structure RDoc where
  doc_id : String
  chunk_id : String
  text : String
  source : String
  metadata : Option RMeta
  score_vector : ℚ
  score_bm25 : ℚ
  rerank_score : ℚ
deriving DecidableEq

/-- `combined_score`: max of the two modality scores. -/
def combined_score (d : RDoc) : ℚ := max d.score_vector d.score_bm25

/-- Settings fields `HybridRetriever` reads. -/
structure RetrSettings where
  vector_top_k : Nat
  retrieval_top_k : Int
  retrieval_per_doc_cap : Int
deriving DecidableEq

/-- `dict[chunk_id] = hit` over insertion order: replace in place or
append. -/
def rdocSet (k : String) (v : RDoc) : List (String × RDoc) → List (String × RDoc)
  | [] => [(k, v)]
  | (k2, w) :: rest => if k2 = k then (k2, v) :: rest else (k2, w) :: rdocSet k v rest

/-- `dict.get`-style lookup for merged hits. -/
def rdocLookup (l : List (String × RDoc)) (k : String) : Option RDoc :=
  assocLookup l k

/-- Update an existing merged entry in place. -/
def rdocUpdate (k : String) (f : RDoc → RDoc) : List (String × RDoc) → List (String × RDoc)
  | [] => []
  | (k2, w) :: rest => if k2 = k then (k2, f w) :: rest else (k2, w) :: rdocUpdate k f rest

/-- Folding a vector hit into an existing BM25 entry:
`update_vector_score(hit.score_vector or hit.combined_score)` (Python
`or` falls through on a zero score), metadata and source fallbacks. -/
def vmerge (hit : RDoc) (existing : RDoc) : RDoc :=
  let sv := if hit.score_vector ≠ 0 then hit.score_vector else combined_score hit
  let e1 := { existing with score_vector := max existing.score_vector sv }
  let e2 := { e1 with metadata := match e1.metadata with | some m => some m | none => hit.metadata }
  if e2.source = "" && hit.source ≠ "" then { e2 with source := hit.source } else e2

/-- `_merge_hits(bm25_hits, vector_hits)`: key by chunk_id, BM25 first,
then merge or append the vector hits; return the values in insertion
order. -/
def merge_hits (bm25 vec : List RDoc) : List RDoc :=
  let m1 := bm25.foldl (fun m h => rdocSet h.chunk_id h m) []
  let m2 := vec.foldl
    (fun m h =>
      match rdocLookup m h.chunk_id with
      | some _ => rdocUpdate h.chunk_id (vmerge h) m
      | none => m ++ [(h.chunk_id, h)])
    m1
  m2.map Prod.snd

/-- `_matches_file_hint(document, hints)` (hints are lowercase). -/
def matches_file_hint (hints : List String) (d : RDoc) : Bool :=
  match d.metadata with
  | none => false
  | some md =>
    [md.filename, md.original_basename, md.object_suffix].any
      (fun v =>
        match v with
        | some s => s ≠ "" && pyLower s ∈ hints
        | none => false)

/-- Assign reranker scores positionally (`zip` truncates; hits beyond the
score list keep their initial 0.0). -/
def assignRerank : List RDoc → List ℚ → List RDoc
  | [], _ => []
  | hits, [] => hits
  | h :: hs, s :: ss => { h with rerank_score := s } :: assignRerank hs ss

/-- `hits.sort(key=(rerank_score, combined_score), reverse=True)`:
stable descending sort on the lexicographic pair. -/
def rerank_sort (hits : List RDoc) : List RDoc :=
  stableSort
    (fun x y =>
      decide (y.rerank_score < x.rerank_score) ||
        (decide (y.rerank_score = x.rerank_score) && decide (combined_score y ≤ combined_score x)))
    hits

/-- `hit.doc_id or hit.source or hit.chunk_id` (Python `or` on strings:
first non-empty operand, else the last). -/
def capKey (h : RDoc) : String :=
  if h.doc_id ≠ "" then h.doc_id else if h.source ≠ "" then h.source else h.chunk_id

/-- The per-doc cap loop: count per `capKey`, keep a hit only below the
cap. -/
def cap_fold (cap : Nat) (counts : List (String × Nat)) : List RDoc → List RDoc
  | [] => []
  | h :: rest =>
    let key := capKey h
    let c := (assocLookup counts key).getD 0
    if cap ≤ c then cap_fold cap counts rest
    else h :: cap_fold cap ((key, c + 1) :: counts) rest

/-- `top_k or default` (Python `or`: `None` and `0` both fall through). -/
def pyOrInt (v : Option Int) (d : Int) : Int :=
  match v with
  | some n => if n ≠ 0 then n else d
  | none => d

/-- The source-tag filter of `retrieve` (step 4): when the index carries
an expected source, keep hits whose lowered `metadata.source` matches. -/
def source_filter (expected_source : Option String) (merged : List RDoc) : List RDoc :=
  match expected_source with
  | none => merged
  | some src =>
    merged.filter
      (fun h =>
        match h.metadata with
        | none => false
        | some md => pyLower (md.source.getD "") = src)

/-- Filename scoping (step 5): restrict to hits matching a file hint,
unless that leaves no hit. -/
def file_scope (file_hints : List String) (merged : List RDoc) : List RDoc :=
  if file_hints.isEmpty then merged
  else
    let scopedHits := merged.filter (matches_file_hint file_hints)
    if scopedHits.isEmpty then merged else scopedHits

/-- `HybridRetriever.retrieve` downstream of the two searches: the BM25
and kNN hit lists, the reranker's scores and the file hints extracted
from the query (external `re` engine) are inputs; merging, source
filtering, filename scoping, reranking, per-doc capping and the final
truncation are modelled from the source. -/
def retrieve (st : RetrSettings) (expected_source : Option String)
    (file_hints : List String) (rerank_scores : List ℚ)
    (bm25 vec : List RDoc) (top_k : Option Int) : List RDoc :=
  let merged3 := file_scope file_hints (source_filter expected_source (merge_hits bm25 vec))
  let reranked := rerank_sort (assignRerank merged3 rerank_scores)
  let doc_cap := (max 1 st.retrieval_per_doc_cap).toNat
  let capped := cap_fold doc_cap [] reranked
  let limit := pyOrInt top_k st.retrieval_top_k
  pySlice capped 0 limit

/-! ## Orchestrator RAG gate (`services/orchestrator/handler.py` and
`services/orchestrator/rag.py`)

Retrieval hits arrive as JSON records; the fields the gate reads are
modelled, with the dates already parsed (`datetime.fromisoformat` is
external; a date is an abstract ordered day number). -/

/-- The metadata keys `handle_query`'s RAG path reads. -/
structure HitMeta where
  source : Option String
  publisher : Option String
  outlet : Option String
  title : Option String
  filename : Option String
  doc_title : Option String
  name : Option String
  date : Option Int
deriving DecidableEq

/-- One retrieval hit as `hybrid_search` returns it. -/
structure Hit where
  score : Option ℚ
  text : String
  doc_id : Option String
  chunk_id : Option String
  metadata : Option HitMeta
deriving DecidableEq

/-- `float(hit.get("score") or 0.0)`. -/
def eff_score (h : Hit) : ℚ := (h.score).getD 0

/-- Empty metadata record (`hit.get("metadata") or {}`). -/
def emptyMeta : HitMeta := ⟨none, none, none, none, none, none, none, none⟩

/-- `_filter_short_chunks`: keep hits whose stripped text has at least
`min_chars` characters. -/
def filter_short_chunks (min_chars : Nat) (hits : List Hit) : List Hit :=
  hits.filter (fun h => min_chars ≤ (pyStrip h.text).data.length)

/-- `rag.rerank(hits, k)`: stable sort by score descending, truncate to
`k`. -/
def rag_rerank (hits : List Hit) (k : Nat) : List Hit :=
  (stableSort (fun a b => decide (eff_score b ≤ eff_score a)) hits).take k

/-- `_apply_freshness_bias`: when requested, re-sort descending on the
score plus a 0.05 bonus for documents dated on or after the bias start
(the hits keep their original scores). -/
def apply_freshness_bias (bias_start : Int) (bias_recent : Bool) (hits : List Hit) : List Hit :=
  if !bias_recent then hits
  else
    let scored := hits.map
      (fun h =>
        let md := h.metadata.getD emptyMeta
        let bonus : ℚ := match md.date with
          | some d => if bias_start ≤ d then Rat.divInt 5 100 else 0
          | none => 0
        (eff_score h + bonus, h))
    (stableSort (fun a b => decide (b.1 ≤ a.1)) scored).map Prod.snd

/-- First candidate that is a string with non-empty strip, stripped. -/
def firstStripped : List (Option String) → Option String
  | [] => none
  | none :: rest => firstStripped rest
  | some s :: rest => if pyStrip s ≠ "" then some (pyStrip s) else firstStripped rest

/-- Python `a or b` on optional strings (`None` and `""` falsy). -/
def pyOrStr (a : Option String) (b : Option String) : Option String :=
  match a with
  | some s => if s ≠ "" then some s else b
  | none => b

/-- `str(x)` for an optional string (`str(None) == "None"`). -/
def pyStrOpt : Option String → String
  | none => "None"
  | some s => s

/-- `_describe_title(hit)`: first non-blank of title/filename/doc_title/
name, else source-or-publisher, else `doc_id or chunk_id or "unknown"`. -/
def describe_title (h : Hit) : String :=
  let md := h.metadata.getD emptyMeta
  match firstStripped [md.title, md.filename, md.doc_title, md.name] with
  | some t => t
  | none =>
    match pyOrStr md.source md.publisher with
    | some s => if pyStrip s ≠ "" then pyStrip s else
        pyStrOpt (pyOrStr h.doc_id (pyOrStr h.chunk_id (some "unknown")))
    | none => pyStrOpt (pyOrStr h.doc_id (pyOrStr h.chunk_id (some "unknown")))

/-- `_doc_identifier(hit)`: stripped doc_id, else stripped chunk_id, else
none. -/
def doc_identifier (h : Hit) : Option String :=
  match h.doc_id with
  | some d => if pyStrip d ≠ "" then some (pyStrip d) else
      match h.chunk_id with
      | some c => if pyStrip c ≠ "" then some (pyStrip c) else none
      | none => none
  | none =>
    match h.chunk_id with
    | some c => if pyStrip c ≠ "" then some (pyStrip c) else none
    | none => none

/-- The stand-in for `datetime.date().isoformat()` on the abstract day
number: injective on equal dates, as the dedup key requires. -/
def dateKeyOf (md : HitMeta) : String :=
  match md.date with
  | some d => "day:" ++ toString d
  | none => ""

/-- The `(outlet, date, title-or-chunk_id)` deduplication key. -/
def dedupe_key (h : Hit) : String × String × String :=
  let md := h.metadata.getD emptyMeta
  let outlet := pyLower (pyStrip (pyStrOpt (pyOrStr md.source (pyOrStr md.publisher (pyOrStr md.outlet (some ""))))))
  let title := pyLower (pyStrip (describe_title h))
  let third := if title ≠ "" then title else pyStrOpt h.chunk_id
  (outlet, dateKeyOf md, third)

/-- The seen-set loop of `_deduplicate_hits`. -/
def dedup_hits_aux (seen : List (String × String × String)) : List Hit → List Hit
  | [] => []
  | h :: rest =>
    let k := dedupe_key h
    if k ∈ seen then dedup_hits_aux seen rest
    else h :: dedup_hits_aux (k :: seen) rest

/-- `_deduplicate_hits(hits)`. -/
def dedup_hits (hits : List Hit) : List Hit := dedup_hits_aux [] hits

/-- The settings values the RAG gate reads. -/
structure RagSettings where
  threshold : ℚ
  max_context_chunks : Nat
  bias_start : Int
deriving DecidableEq

/-- `RAG_REQUIRED_MIN_SOURCES`. -/
def RAG_REQUIRED_MIN_SOURCES : Nat := 3

/-- `RAG_MIN_CHARS`. -/
def RAG_MIN_CHARS : Nat := 300

/-- The hit pipeline of the RAG branch: short-chunk filter, rerank to
`max(top_k, max_context_chunks)`, freshness bias, dedup. -/
def rag_pipeline (st : RagSettings) (top_k : Nat) (bias : Bool) (hits : List Hit) : List Hit :=
  dedup_hits
    (apply_freshness_bias st.bias_start bias
      (rag_rerank (filter_short_chunks RAG_MIN_CHARS hits) (max top_k st.max_context_chunks)))

/-- Distinct identifiers of hits scoring at least the threshold, in
first-occurrence order (`dict.fromkeys(high_quality_ids)`). -/
def high_quality_ids (st : RagSettings) (hits : List Hit) : List String :=
  dedupKeepFirst
    (hits.filterMap (fun h => if st.threshold ≤ eff_score h then doc_identifier h else none))

/-- The projection of `_build_insufficient_response`'s `AssistantResponse`
that the claims constrain, together with the `rag_failure` telemetry set
just before it is built. -/
structure InsufficientResp where
  route : String
  text : String
  citations : List (String × String)
  rag_failure : String
deriving DecidableEq

/-- `INSUFFICIENT_MESSAGE`. -/
def INSUFFICIENT_MESSAGE : String := "INSUFFICIENT EVIDENCE"

/-- `_build_insufficient_response`: fixed text, `route="RAG"`, empty
citations; `rag_failure` was recorded in the telemetry beforehand. -/
def build_insufficient_response (failure : String) : InsufficientResp :=
  { route := "RAG", text := INSUFFICIENT_MESSAGE, citations := [], rag_failure := failure }

/-- Outcome of the RAG branch: the early insufficient-evidence return, or
the rag pack handed to synthesis. -/
inductive RagStepResult
  | insufficient (r : InsufficientResp)
  | pack (docs : List Hit)
deriving DecidableEq

/-- The RAG branch of `handle_query` when `rag_required` holds:
`retrieval` is `hybrid_search`'s outcome (`.error` models a raised
`httpx` error, which yields `INDEX_NOT_READY`); otherwise the evidence
gate counts distinct high-quality doc ids and either builds the rag pack
or fails with `NO_MATCHES`/`LOW_CONFIDENCE`. -/
def rag_branch (st : RagSettings) (top_k : Nat) (bias : Bool)
    (retrieval : Except String (List Hit)) : RagStepResult :=
  match retrieval with
  | .error _ => .insufficient (build_insufficient_response "INDEX_NOT_READY")
  | .ok hits =>
    let deduped := rag_pipeline st top_k bias hits
    let doc_count := (high_quality_ids st deduped).length
    if RAG_REQUIRED_MIN_SOURCES ≤ doc_count then
      .pack (deduped.take st.max_context_chunks)
    else
      .insufficient
        (build_insufficient_response (if deduped.isEmpty then "NO_MATCHES" else "LOW_CONFIDENCE"))

/-! ## Ingestion stages (`services/data-tunnel/workers/tasks.py`) -/

/-- `options.dq.pii` of the ingest options payload. -/
structure PiiConfig where
  action : Option String
  mask : Option String
  policy : Option String
deriving DecidableEq

/-- `options.dq`. -/
structure DqOptions where
  pii : Option PiiConfig
  skip : Option (List String)
deriving DecidableEq

/-- `options.ingest`. -/
structure IngestOptions where
  fail_on_pii : Option Bool
  continue_on_warn : Option Bool
deriving DecidableEq

/-- The full `options` object. -/
structure OptionsPayload where
  dq : Option DqOptions
  ingest : Option IngestOptions
deriving DecidableEq

/-- The fields of the canonical payload that the modelled stages read. -/
structure Canonical where
  doc_id : Option String
  text : String
  lang : Option String
  options : Option OptionsPayload
  chunk_strategy : Option ChunkStrategy
deriving DecidableEq

/-- The effective PII action:
`str(pii_config.get("action", "redact")).lower() or "redact"`. -/
def pii_action_of (opts : Option OptionsPayload) : String :=
  let cfg := (opts.bind (·.dq)).bind (·.pii)
  let a := pyLower ((cfg.bind (·.action)).getD "redact")
  if a = "" then "redact" else a

/-- `bool(ingest_section.get("fail_on_pii", False))`. -/
def fail_on_pii_of (opts : Option OptionsPayload) : Bool :=
  ((opts.bind (·.ingest)).bind (·.fail_on_pii)).getD false

/-- `bool(ingest_section.get("continue_on_warn", True))`. -/
def continue_on_warn_of (opts : Option OptionsPayload) : Bool :=
  ((opts.bind (·.ingest)).bind (·.continue_on_warn)).getD true

/-- The observable outcome of one stage run: the FAILED transition reason
if any, the name of the stage enqueued next if any, and whether the
stage was marked complete in the ledger. -/
structure StageOutcome where
  failed : Option String
  enqueued : Option String
  completed : Bool
deriving DecidableEq

/-- The `pii_dq` stage (manifest lookup, PII gate, DQ gate, handoff to
`enrich_stage`).  External effects are data: `pii_total` is the
`_total` of the `apply_pii` report, `ledger_done` is
`stage_completed(ingest_id, "pii_dq")`, and `dq_passed` is the verdict
of `run_checks`. -/
def pii_dq_stage (manifest_present : Bool) (c : Canonical)
    (pii_total : Nat) (ledger_done : Bool) (dq_passed : Bool) : StageOutcome :=
  if !manifest_present then { failed := none, enqueued := none, completed := false }
  else
    let action := pii_action_of c.options
    let failFlag := fail_on_pii_of c.options
    let warnFlag := continue_on_warn_of c.options
    let pii_found := decide (0 < pii_total)
    if pii_found && (decide (action = "fail") || decide (action = "reject") || failFlag) then
      if !ledger_done then
        { failed := some "PII policy violation", enqueued := none, completed := false }
      else
        { failed := none, enqueued := none, completed := false }
    else
      if !dq_passed && !ledger_done && !warnFlag then
        { failed := some "DQ checks failed", enqueued := none, completed := false }
      else
        { failed := none, enqueued := some "enrich_stage", completed := true }

/-- One chunk row as `chunk_embed` upserts it (the claim-relevant
columns). -/
structure ChunkPayload where
  chunk_id : String
  doc_id : String
  tenant_id : String
  text : String
  lang : Option String
  chunk_index : Nat
deriving DecidableEq

/-- The chunk id of `chunk_embed`:
`sha1(f"{doc_id}::{idx}::{text}").hexdigest()`. -/
def chunk_hash (resolved_doc_id : String) (idx : Nat) (text : String) : String :=
  sha1Hex (utf8Bytes (resolved_doc_id ++ "::" ++ toString idx ++ "::" ++ text))

/-- The chunk rows produced by the `chunk_embed` stage: config strategy
overridden by the canonical `chunk_strategy` (only
`max_tokens`/`overlap_tokens`), `semantic_chunks` on the canonical text,
then one payload per enumerated chunk.  `none` propagates a diverging
chunker. -/
def chunk_embed_payloads (ingest_id tenant_id : String) (base : ChunkStrategy)
    (c : Canonical) : Option (List ChunkPayload) :=
  let strategy :=
    match c.chunk_strategy with
    | some ov =>
      { max_tokens := match ov.max_tokens with | some v => some v | none => base.max_tokens,
        overlap_tokens := match ov.overlap_tokens with | some v => some v | none => base.overlap_tokens }
    | none => base
  (semantic_chunks c.text strategy).map
    (fun texts =>
      texts.enum.map
        (fun it =>
          { chunk_id := chunk_hash (c.doc_id.getD ingest_id) it.1 it.2,
            doc_id := c.doc_id.getD ingest_id,
            tenant_id := tenant_id,
            text := it.2,
            lang := c.lang,
            chunk_index := it.1 }))

/-- Chunk rows an ingest acquires downstream of `pii_dq`: the chain
`pii_dq → enrich_stage → chunk_embed` only reaches the chunk writer when
`pii_dq` enqueued its successor (`enrich` passes the text through). -/
def chunks_after_pii_dq (manifest_present : Bool) (c : Canonical)
    (pii_total : Nat) (ledger_done : Bool) (dq_passed : Bool)
    (ingest_id tenant_id : String) (base : ChunkStrategy) : Option (List ChunkPayload) :=
  match (pii_dq_stage manifest_present c pii_total ledger_done dq_passed).enqueued with
  | none => some []
  | some _ => chunk_embed_payloads ingest_id tenant_id base c

/-! ## Theorems -/

/-! ### Chunker: span characterisation, termination, coverage -/

/-- The word-level loop is the span-level loop with each span sliced out. -/
theorem word_chunks_aux_eq_spans (words : List String) (mt ov : Int) :
    ∀ (fuel : Nat) (start : Int),
      word_chunks_aux words mt ov fuel start =
        (chunk_spans_aux words.length mt ov fuel start).map
          (fun sp => sp.map (fun p => pySlice words p.1 p.2)) := by
  intro fuel
  induction fuel with
  | zero => intro start; rfl
  | succ n ih =>
    intro start
    simp only [word_chunks_aux, chunk_spans_aux]
    by_cases h : start < (words.length : Int)
    · simp only [h, if_true]
      by_cases hstop : min (start + mt) (words.length : Int) = (words.length : Int)
      · simp [hstop]
      · simp only [hstop, if_false, ih]
        cases chunk_spans_aux words.length mt ov n
            (max 0 (min (start + mt) (words.length : Int) - ov)) with
        | none => simp
        | some rest => simp
    · simp [h]

/-- Characterisation of the span loop under the well-formedness
precondition `0 ≤ overlap < max_tokens`: with fuel exceeding the
remaining word count it terminates, the head window starts at `start`,
every window is nonempty, ends within the text and holds at most
`max_tokens` words, consecutive windows overlap by exactly `overlap`
positions, the last window ends at the text end, and the windows cover
`[start, n)`. -/
theorem chunk_spans_aux_spec (n : Nat) (mt ov : Int)
    (hmt : 1 ≤ mt) (hov : 0 ≤ ov) (hlt : ov < mt) :
    ∀ (fuel : Nat) (start : Int), 0 ≤ start → (n : Int) - start < fuel → 0 < fuel →
      ∃ sp, chunk_spans_aux n mt ov fuel start = some sp ∧
        (((n : Int) ≤ start → sp = []) ∧
         (start < (n : Int) → ∃ tail, sp = (start, min (start + mt) (n : Int)) :: tail) ∧
         (∀ p ∈ sp, p.1 < p.2 ∧ p.2 ≤ (n : Int) ∧ p.2 - p.1 ≤ mt) ∧
         sp.Chain' (fun a b => b.1 = a.2 - ov ∧ a.2 ≤ b.2) ∧
         (∀ p, sp.getLast? = some p → p.2 = (n : Int)) ∧
         (∀ i : Int, start ≤ i → i < (n : Int) → ∃ p ∈ sp, p.1 ≤ i ∧ i < p.2)) := by
  intro fuel
  induction fuel with
  | zero => intro start h0 h1 h2; omega
  | succ fuel ih =>
    intro start h0 hfuel _
    by_cases hsn : start < (n : Int)
    · by_cases hstop : min (start + mt) (n : Int) = (n : Int)
      · refine ⟨[(start, min (start + mt) (n : Int))], by simp [chunk_spans_aux, hsn, hstop],
          fun h => absurd hsn (not_lt.mpr h), fun _ => ⟨[], rfl⟩, ?_, ?_, ?_, ?_⟩
        · intro p hp
          have hp' : p = (start, min (start + mt) (n : Int)) := by simpa using hp
          subst hp'
          have h1 : min (start + mt) (n : Int) ≤ start + mt := min_le_left _ _
          refine ⟨?_, ?_, ?_⟩ <;> simp only [] <;> omega
        · simp
        · intro p hp
          simp only [List.getLast?_singleton, Option.some.injEq] at hp
          subst hp
          omega
        · intro i hi1 hi2
          exact ⟨(start, min (start + mt) (n : Int)), by simp, hi1, by omega⟩
      · have hminle : min (start + mt) (n : Int) ≤ start + mt := min_le_left _ _
        have hminle2 : min (start + mt) (n : Int) ≤ (n : Int) := min_le_right _ _
        have hlt3 : start + mt < (n : Int) := by
          rcases le_total (start + mt) (n : Int) with h | h
          · have := min_eq_left h
            omega
          · exact absurd (min_eq_right h) hstop
        have hstopval : min (start + mt) (n : Int) = start + mt := min_eq_left (by omega)
        have hstart' : max 0 (min (start + mt) (n : Int) - ov) = start + mt - ov := by
          rw [hstopval]
          exact max_eq_right (by omega)
        obtain ⟨sp', heq', hnil', hhead', hgood', hchain', hlast', hcov'⟩ :=
          ih (start + mt - ov) (by omega) (by omega) (by omega)
        obtain ⟨tail2, htail2⟩ := hhead' (by omega)
        have heq : chunk_spans_aux n mt ov (fuel + 1) start =
            some ((start, min (start + mt) (n : Int)) :: sp') := by
          simp [chunk_spans_aux, hsn, hstop, hstart', heq']
        refine ⟨(start, min (start + mt) (n : Int)) :: sp', heq,
          fun h => absurd hsn (not_lt.mpr h), fun _ => ⟨sp', rfl⟩, ?_, ?_, ?_, ?_⟩
        · intro p hp
          rcases List.mem_cons.mp hp with hp' | hp'
          · subst hp'
            refine ⟨?_, ?_, ?_⟩ <;> simp only [] <;> omega
          · exact hgood' p hp'
        · refine List.chain'_cons'.mpr ⟨?_, hchain'⟩
          intro y hy
          rw [htail2] at hy
          simp only [List.head?_cons, Option.mem_def, Option.some.injEq] at hy
          subst hy
          constructor
          · simp only []
            omega
          · simp only []
            refine le_min ?_ ?_ <;> omega
        · intro p hp
          rw [htail2, List.getLast?_cons_cons] at hp
          apply hlast'
          rw [htail2]
          exact hp
        · intro i hi1 hi2
          by_cases hci : i < min (start + mt) (n : Int)
          · exact ⟨(start, min (start + mt) (n : Int)), List.mem_cons_self _ _, hi1, hci⟩
          · obtain ⟨p, hp, hp1, hp2⟩ := hcov' i (by omega) hi2
            exact ⟨p, List.mem_cons_of_mem _ hp, hp1, hp2⟩
    · refine ⟨[], by simp [chunk_spans_aux, hsn], fun _ => rfl,
        fun h => absurd h hsn, by simp, by simp, by simp, ?_⟩
      intro i hi1 hi2
      omega

/-- C10: `semantic_chunks` terminates for every text when the strategy
satisfies `max_tokens ≥ 1` and `0 ≤ overlap_tokens < max_tokens` (fuel
`words.length + 1` suffices because the start index strictly increases);
and the precondition is necessary: with `overlap_tokens ≥ max_tokens`
and a text longer than `max_tokens` words the start index never
advances, so no amount of fuel makes the loop return. -/
theorem word_chunks_termination :
    (∀ (words : List String) (mt ov : Int), 1 ≤ mt → 0 ≤ ov → ov < mt →
      (word_chunks words mt ov).isSome = true) ∧
    (∀ (words : List String) (mt ov : Int), 1 ≤ mt → mt ≤ ov →
      mt < (words.length : Int) → ∀ fuel, word_chunks_aux words mt ov fuel 0 = none) := by
  constructor
  · intro words mt ov hmt hov hlt
    obtain ⟨sp, heq, -⟩ :=
      chunk_spans_aux_spec words.length mt ov hmt hov hlt (words.length + 1) 0
        le_rfl (by push_cast; omega) (by omega)
    rw [word_chunks, word_chunks_aux_eq_spans, heq]
    rfl
  · intro words mt ov hmt hov hlen fuel
    induction fuel with
    | zero => rfl
    | succ fuel ih =>
      have h0n : (0 : Int) < words.length := by omega
      have hstop : min ((0 : Int) + mt) (words.length : Int) = mt := by
        rw [zero_add]
        exact min_eq_left (le_of_lt hlen)
      have hne : ¬ min ((0 : Int) + mt) (words.length : Int) = (words.length : Int) := by
        rw [hstop]
        omega
      have hms : max 0 (min ((0 : Int) + mt) (words.length : Int) - ov) = 0 := by
        rw [hstop]
        exact max_eq_left (by omega)
      simp only [word_chunks_aux, h0n, if_true, hne, if_false, hms, ih]

/-- Witness for C10: a terminating strategy on a three-word text, and a
diverging configuration (`max_tokens = overlap = 1`) on a two-word
text. -/
theorem word_chunks_termination_witness :
    (word_chunks ["a", "b", "c"] 2 1).isSome = true ∧
      word_chunks_aux ["a", "b"] 1 1 5 0 = none :=
  ⟨word_chunks_termination.1 ["a", "b", "c"] 2 1 (by decide) (by decide) (by decide),
   word_chunks_termination.2 ["a", "b"] 1 1 (by decide) (by decide) (by decide) 5⟩

/-- C5 counterexample: for the strategy `max_tokens = 1`,
`overlap_tokens = 1` (allowed by the claim's quantification over every
chunking strategy) and the two-word text `"a b"`, `semantic_chunks`
diverges (the canonical fuel — indeed any fuel, by the necessity half of
`word_chunks_termination` — is exhausted), so it returns no window list
at all; in particular no window contains the first word, contradicting
the claimed coverage. -/
theorem semantic_chunks_nonterminating_counterexample :
    semantic_chunks "a b" ⟨some 1, some 1⟩ = none := by decide

/-- C5 (amended with the well-formedness precondition
`0 ≤ overlap_tokens < max_tokens` that the counterexample forces):
`semantic_chunks` whitespace-tokenizes the text and windows the words:
there is a span list such that the returned chunks are exactly the
space-joined word slices of those spans, every window holds at least one
and at most `max_tokens` words, each consecutive window starts exactly
`overlap_tokens` positions before the previous one ends (and extends at
least to that end, so `overlap_tokens` word positions are shared), the
last window ends at the last word, and every word position lies in some
window. -/
theorem semantic_chunks_window_coverage (text : String) (cfg : ChunkStrategy)
    (mt ov : Int) (hcm : cfg.max_tokens.getD 700 = mt) (hco : cfg.overlap_tokens.getD 80 = ov)
    (hmt : 1 ≤ mt) (hov : 0 ≤ ov) (hlt : ov < mt) :
    ∃ sp, chunk_spans (pyWords text).length mt ov = some sp ∧
      semantic_chunks text cfg =
        some (sp.map (fun p => String.intercalate " " (pySlice (pyWords text) p.1 p.2))) ∧
      (∀ p ∈ sp, p.1 < p.2 ∧ p.2 ≤ ((pyWords text).length : Int) ∧ p.2 - p.1 ≤ mt) ∧
      sp.Chain' (fun a b => b.1 = a.2 - ov ∧ a.2 ≤ b.2) ∧
      (∀ p, sp.getLast? = some p → p.2 = ((pyWords text).length : Int)) ∧
      (∀ i : Int, 0 ≤ i → i < ((pyWords text).length : Int) → ∃ p ∈ sp, p.1 ≤ i ∧ i < p.2) := by
  obtain ⟨sp, heq, -, -, hgood, hchain, hlast, hcov⟩ :=
    chunk_spans_aux_spec (pyWords text).length mt ov hmt hov hlt ((pyWords text).length + 1) 0
      le_rfl (by push_cast; omega) (by omega)
  refine ⟨sp, heq, ?_, hgood, hchain, hlast, fun i h1 h2 => hcov i h1 h2⟩
  have hwc : word_chunks (pyWords text) mt ov =
      some (sp.map (fun p => pySlice (pyWords text) p.1 p.2)) := by
    have heq2 : chunk_spans_aux (pyWords text).length mt ov ((pyWords text).length + 1) 0 =
        some sp := heq
    rw [word_chunks, word_chunks_aux_eq_spans, heq2]
    rfl
  simp only [semantic_chunks, hcm, hco, hwc, Option.map_some', List.map_map]
  rfl

/-- Witness for C5: the strategy `max_tokens = 2`, `overlap = 1` on a
three-word text. -/
theorem semantic_chunks_window_coverage_witness :
    ∃ sp, chunk_spans (pyWords "alpha beta gamma").length 2 1 = some sp ∧
      semantic_chunks "alpha beta gamma" ⟨some 2, some 1⟩ =
        some (sp.map (fun p => String.intercalate " " (pySlice (pyWords "alpha beta gamma") p.1 p.2))) ∧
      (∀ p ∈ sp, p.1 < p.2 ∧ p.2 ≤ ((pyWords "alpha beta gamma").length : Int) ∧ p.2 - p.1 ≤ 2) ∧
      sp.Chain' (fun a b => b.1 = a.2 - 1 ∧ a.2 ≤ b.2) ∧
      (∀ p, sp.getLast? = some p → p.2 = ((pyWords "alpha beta gamma").length : Int)) ∧
      (∀ i : Int, 0 ≤ i → i < ((pyWords "alpha beta gamma").length : Int) →
        ∃ p ∈ sp, p.1 ≤ i ∧ i < p.2) :=
  semantic_chunks_window_coverage "alpha beta gamma" ⟨some 2, some 1⟩ 2 1
    (by decide) (by decide) (by decide) (by decide) (by decide)

/-! ### Memory window -/

/-- Every block list the window loop collects is a prefix of the blocks
of the walked (newest-first) turn list. -/
theorem collect_blocks_take :
    ∀ (l : List MemoryTurn) (budget : Int) (first : Bool),
      ∃ k, collect_blocks budget first l = (l.map turnBlock).take k := by
  intro l
  induction l with
  | nil => exact fun _ _ => ⟨0, rfl⟩
  | cons t rest ih =>
    intro budget first
    simp only [collect_blocks]
    split
    · exact ⟨0, rfl⟩
    · split
      · exact ⟨1, rfl⟩
      · obtain ⟨k, hk⟩ := ih (budget - (approx_token_len t.user + approx_token_len t.assistant)) false
        exact ⟨k + 1, by rw [hk]; rfl⟩

/-- C9: `get_recent_window` with token cap 0 returns the empty string
(without raising); with a positive cap and at least one stored turn, it
returns a non-empty block list that is a suffix of the thread's
`User/Assistant` blocks in chronological order, joined by blank lines
(the loop collects newest-first and the result is reversed). -/
theorem memory_window_token_cap :
    (∀ turns : List MemoryTurn, get_recent_window turns 0 = "") ∧
    (∀ (turns : List MemoryTurn) (cap : Int), 0 < cap → turns ≠ [] →
      ∃ blocks : List String, blocks ≠ [] ∧ blocks <:+ turns.map turnBlock ∧
        get_recent_window turns cap = String.intercalate "\n\n" blocks) := by
  constructor
  · intro turns
    rfl
  · intro turns cap hcap hne
    refine ⟨(collect_blocks cap true turns.reverse).reverse, ?_, ?_, ?_⟩
    · obtain ⟨t, rest, hrev⟩ : ∃ t rest, turns.reverse = t :: rest := by
        cases h : turns.reverse with
        | nil =>
          exact absurd (by simpa using congrArg List.reverse h) hne
        | cons t rest => exact ⟨t, rest, rfl⟩
      rw [hrev]
      simp only [collect_blocks]
      split
      · rename_i hcond
        simp at hcond
      · simp
    · obtain ⟨k, hk⟩ := collect_blocks_take turns.reverse cap true
      rw [hk, List.map_reverse]
      refine ⟨(((turns.map turnBlock).reverse).drop k).reverse, ?_⟩
      rw [← List.reverse_append, List.take_append_drop, List.reverse_reverse]
    · rw [get_recent_window, if_neg (by omega), if_neg (by simpa [List.isEmpty_iff] using hne)]

/-- Witness for C9: one stored turn, cap 0 and cap 9. -/
theorem memory_window_token_cap_witness :
    get_recent_window [⟨"hi", "there", 2⟩] 0 = "" ∧
      ∃ blocks : List String, blocks ≠ [] ∧
        blocks <:+ [MemoryTurn.mk "hi" "there" 2].map turnBlock ∧
        get_recent_window [⟨"hi", "there", 2⟩] 9 = String.intercalate "\n\n" blocks :=
  ⟨memory_window_token_cap.1 [⟨"hi", "there", 2⟩],
   memory_window_token_cap.2 [⟨"hi", "there", 2⟩] 9 (by decide) (by decide)⟩

/-! ### Planner -/

/-- C6 counterexample: the message contains the simulation keyword
`simulate`, yet when the planner LLM reply fails to parse
(`llm_reply = none`), `plan` returns the default plan whose `needRisk`
is `false` — so "for every message containing a simulation keyword, the
returned plan has needRisk = true" is false as stated. -/
theorem planner_sim_keyword_counterexample :
    has_sim_keyword "simulate the downside of a price cut" = true ∧
      (planner_plan "simulate the downside of a price cut" none).needRisk = false := by
  exact ⟨by decide, rfl⟩

/-- C6 (amended: the keyword rule applies to plans the LLM reply
actually parsed into; on JSON/validation failure the default plan with
`needRisk = false` is returned, as the counterexample shows): a
definitional message without simulation keywords yields
`needRisk = false` regardless of the LLM reply (parsed or not), and a
message containing a simulation keyword yields `needRisk = true` for
every parsed reply. -/
theorem planner_definitional_override :
    (∀ (msg : String) (reply : Option Plan), looks_definitional msg = true →
      has_sim_keyword msg = false → (planner_plan msg reply).needRisk = false) ∧
    (∀ (msg : String) (p : Plan), has_sim_keyword msg = true →
      (planner_plan msg (some p)).needRisk = true) := by
  constructor
  · intro msg reply hdef hsim
    cases reply with
    | none => rfl
    | some p => simp [planner_plan, plan_post, hsim, hdef]
  · intro msg p h
    simp [planner_plan, plan_post, h]

/-- Witness for C6: `"what is risk analysis?"` with a parsed plan whose
`needRisk` was `true` is overridden to `false`; `"simulate revenue
downside"` with a parsed plan whose `needRisk` was `false` is forced to
`true`. -/
theorem planner_definitional_override_witness :
    (planner_plan "what is risk analysis?"
      (some { needRag := false, needRisk := true, ragQueries := [], riskSpec := none,
              expected := [], confidence := 1 })).needRisk = false ∧
    (planner_plan "simulate revenue downside"
      (some { needRag := false, needRisk := false, ragQueries := [], riskSpec := none,
              expected := [], confidence := 1 })).needRisk = true :=
  ⟨planner_definitional_override.1 "what is risk analysis?" _ (by decide) (by decide),
   planner_definitional_override.2 "simulate revenue downside" _ (by decide)⟩

/-! ### Trial bounding -/

/-- `pow2` is exponentiation by two. -/
theorem pow2_eq (k : Nat) : pow2 k = 2 ^ k := by
  simp [pow2, Nat.shiftLeft_eq]

/-- `powSqAux` computes `acc * b ^ e` whenever the fuel covers the
halving chain (in particular for `fuel = e`). -/
theorem powSqAux_eq : ∀ (fuel b e acc : Nat), e ≤ fuel →
    powSqAux fuel b e acc = acc * b ^ e := by
  intro fuel
  induction fuel with
  | zero =>
    intro b e acc he
    have h0 : e = 0 := Nat.le_zero.mp he
    subst h0
    simp [powSqAux]
  | succ n ih =>
    intro b e acc he
    by_cases h0 : e = 0
    · subst h0
      simp [powSqAux]
    · have hpos : 0 < e := Nat.pos_of_ne_zero h0
      have h2 : e / 2 ≤ n := by
        have := Nat.div_lt_self hpos one_lt_two
        omega
      simp only [powSqAux, if_neg h0]
      rw [ih (b * b) (e / 2) _ h2]
      have hb : (b * b) ^ (e / 2) = b ^ (e / 2 + e / 2) := by
        rw [mul_pow, pow_add]
      by_cases hpar : e % 2 = 1
      · simp only [if_pos hpar]
        have hsplit : b ^ e = b ^ (e / 2 + e / 2) * b := by
          conv_lhs => rw [show e = e / 2 + e / 2 + 1 by omega]
          rw [pow_succ]
        rw [hb, hsplit]
        ring
      · simp only [if_neg hpar]
        have hsplit : b ^ e = b ^ (e / 2 + e / 2) := by
          conv_lhs => rw [show e = e / 2 + e / 2 by omega]
        rw [hb, hsplit]

/-- `pow10` is exponentiation by ten. -/
theorem pow10_eq (e : Nat) : pow10 e = 10 ^ e := by
  rw [pow10, powSqAux_eq e 10 e 1 le_rfl, one_mul]

set_option maxRecDepth 4000 in
/-- The binary64 rounding model reproduces CPython reference
conversions: `float("0.1")` is the nearest double
`3602879701896397 / 2 ^ 55`, the tie `2 ^ 53 + 1` rounds to even,
`5e-324` is the smallest subnormal `2 ^ -1074` while half of it rounds
to zero, `float("1e999")` saturates to infinity, the largest integer
below the overflow cutoff `2 ^ 1024 - 2 ^ 970` rounds to the maximum
double `2 ^ 1024 - 2 ^ 971`, and the cutoff itself raises
`OverflowError`. -/
theorem roundToDouble_reference_values :
    parse_number_str "0.1" =
      some (.finite (Rat.divInt 3602879701896397 36028797018963968)) ∧
    parse_number_str "9007199254740993" =
      some (.finite ((9007199254740992 : Int) : ℚ)) ∧
    parse_number_str "5e-324" =
      some (.finite (Rat.divInt 1 ((pow2 1074 : Nat) : Int))) ∧
    parse_number_str "2.4e-324" = some (.finite 0) ∧
    parse_number_str "1e999" = some .inf ∧
    parse_number_value (JVal.jint ((pow2 1024 - pow2 970 - 1 : Nat) : Int)) =
      some (some (.finite (((pow2 1024 - pow2 971 : Nat) : Int) : ℚ))) ∧
    parse_number_raises (JVal.jint ((pow2 1024 - pow2 970 : Nat) : Int)) = true := by
  refine ⟨by decide, by decide, by decide, by decide, by decide, by decide, by decide⟩

/-- Setting a key then reading it back yields the new value. -/
theorem jobjGet_jobjSet (fs : List (String × JVal)) (k : String) (v : JVal) :
    jobjGet (jobjSet fs k v) k = some v := by
  induction fs with
  | nil => simp [jobjSet, jobjGet]
  | cons kv rest ih =>
    obtain ⟨k2, w⟩ := kv
    by_cases h : k2 = k
    · subst h
      simp [jobjSet, jobjGet]
    · simp [jobjSet, jobjGet, h, ih]

set_option maxRecDepth 4000 in
/-- C8 counterexample: with positive `max_trials = 50` and `trials = 200`
the result is `50`, which does not lie in `[100, max_trials]` — the
claimed interval membership fails whenever `max_trials < 100` (the
formula `min(max_trials, max(100, parsed))` is what actually holds on
the non-raising paths). -/
theorem bound_trials_interval_counterexample :
    bound_trials_trials [("trials", JVal.jint 200)] 50 = some 50 ∧
      ¬ ((100 : Int) ≤ 50) := by
  exact ⟨by decide, by decide⟩

set_option maxRecDepth 4000 in
/-- C8 (amended: whenever the lenient coercion of the trials field
returns — numbers and bools accepted, currency symbols, commas and
other non-numeric characters stripped from strings, the default
`max_trials` used when unparseable — the result's trials is exactly
`min(max_trials, max(100, parsed_trials))`, which lies within
`[100, max_trials]` whenever `max_trials ≥ 100`; the counterexample
shows the interval fails for positive `max_trials < 100`.  Moreover the
coercion's `OverflowError` propagates out of `bound_trials`: a string
trials value overflowing binary64 such as `"1e999"` parses to infinity
and `int(inf)` raises past the `except (TypeError, ValueError)` clause,
and `float(10 ^ 999)` of an integer trials value raises directly). -/
theorem bound_trials_clamp :
    (∀ (spec : List (String × JVal)) (mt t : Int),
      coerce_int ((jobjGet spec "trials").getD JVal.null) mt = .ok t →
      bound_trials_trials spec mt = some (min mt (max 100 t))) ∧
    (∀ (spec : List (String × JVal)) (mt t : Int), 100 ≤ mt →
      bound_trials_trials spec mt = some t → 100 ≤ t ∧ t ≤ mt) ∧
    (∀ (spec : List (String × JVal)) (mt : Int) (e : PyErr),
      coerce_int ((jobjGet spec "trials").getD JVal.null) mt = .error e →
      bound_trials_raises spec mt = true) ∧
    parse_number_value (JVal.jstr " $1,500 ") = some (some (.finite 1500)) ∧
    parse_number_value (JVal.jstr "n/a") = some none ∧
    bound_trials_raises [("trials", JVal.jstr "1e999")] 10000 = true ∧
    parse_number_raises (JVal.jint (pow10 999)) = true := by
  have h1 : ∀ (spec : List (String × JVal)) (mt t : Int),
      coerce_int ((jobjGet spec "trials").getD JVal.null) mt = .ok t →
      bound_trials_trials spec mt = some (min mt (max 100 t)) := by
    intro spec mt t hok
    simp only [bound_trials_trials, bound_trials, hok, trialsOf, jobjGet_jobjSet]
  refine ⟨h1, ?_, ?_, by decide, by decide, by decide, by decide⟩
  · intro spec mt t hmt ht
    cases hc : coerce_int ((jobjGet spec "trials").getD JVal.null) mt with
    | error e => simp [bound_trials_trials, bound_trials, hc] at ht
    | ok tr =>
      rw [h1 spec mt tr hc] at ht
      have ht2 : min mt (max 100 tr) = t := Option.some.inj ht
      subst ht2
      exact ⟨le_min hmt (le_max_left _ _), min_le_left _ _⟩
  · intro spec mt e herr
    simp [bound_trials_raises, bound_trials, herr]

set_option maxRecDepth 4000 in
/-- Witness for C8: a currency-formatted trials string clamped to the
maximum. -/
theorem bound_trials_clamp_witness :
    bound_trials_trials [("trials", JVal.jstr "$2,000,000")] 10000 = some 10000 ∧
      (100 ≤ (10000 : Int) ∧ (10000 : Int) ≤ 10000) :=
  ⟨by decide,
   bound_trials_clamp.2.1 [("trials", JVal.jstr "$2,000,000")] 10000 10000
     (by decide) (by decide)⟩

/-! ### Ingestion: chunk ids and the PII gate -/

/-- Every chunk payload `chunk_embed` produces carries the SHA-1 of its
own `(doc_id, chunk_index, text)` triple as its id. -/
theorem chunk_payload_id (ingest_id tenant_id : String) (base : ChunkStrategy)
    (c : Canonical) (ps : List ChunkPayload) (p : ChunkPayload)
    (hps : chunk_embed_payloads ingest_id tenant_id base c = some ps) (hp : p ∈ ps) :
    p.chunk_id = chunk_hash p.doc_id p.chunk_index p.text := by
  simp only [chunk_embed_payloads] at hps
  obtain ⟨texts, -, hmap⟩ := Option.map_eq_some'.mp hps
  rw [← hmap] at hp
  obtain ⟨it, -, hit⟩ := List.mem_map.mp hp
  rw [← hit]

/-- C3: across any two executions of the `chunk_embed` stage (any ingest
ids, tenants, base strategies, canonical payloads — in particular any
re-ingest), two produced chunks that agree on `(doc_id, chunk_index,
text)` receive the same `chunk_id`: the id is the SHA-1 hex digest of
`doc_id ∥ "::" ∥ index ∥ "::" ∥ text`, a deterministic function of
exactly that triple. -/
theorem chunk_id_deterministic
    (i1 t1 : String) (b1 : ChunkStrategy) (c1 : Canonical)
    (i2 t2 : String) (b2 : ChunkStrategy) (c2 : Canonical)
    (ps1 ps2 : List ChunkPayload) (p1 p2 : ChunkPayload)
    (h1 : chunk_embed_payloads i1 t1 b1 c1 = some ps1) (hp1 : p1 ∈ ps1)
    (h2 : chunk_embed_payloads i2 t2 b2 c2 = some ps2) (hp2 : p2 ∈ ps2)
    (hd : p1.doc_id = p2.doc_id) (hi : p1.chunk_index = p2.chunk_index)
    (ht : p1.text = p2.text) :
    p1.chunk_id = p2.chunk_id := by
  rw [chunk_payload_id i1 t1 b1 c1 ps1 p1 h1 hp1,
    chunk_payload_id i2 t2 b2 c2 ps2 p2 h2 hp2, hd, hi, ht]

set_option maxRecDepth 100000 in
/-- Witness for C3: two ingests with different tenants and canonical
languages produce the chunk `("doc", 0, "hi")`; the ids coincide. -/
theorem chunk_id_deterministic_witness :
    (ChunkPayload.mk "87f57fd47927af9d7347f19dd65a2759838eadd8" "doc" "tenantA" "hi" none 0).chunk_id =
      (ChunkPayload.mk "87f57fd47927af9d7347f19dd65a2759838eadd8" "doc" "tenantB" "hi" (some "en") 0).chunk_id :=
  chunk_id_deterministic "ingA" "tenantA" ⟨some 700, some 80⟩
    { doc_id := some "doc", text := "hi", lang := none, options := none, chunk_strategy := none }
    "ingB" "tenantB" ⟨some 700, some 80⟩
    { doc_id := some "doc", text := "hi", lang := some "en", options := none, chunk_strategy := none }
    [⟨"87f57fd47927af9d7347f19dd65a2759838eadd8", "doc", "tenantA", "hi", none, 0⟩]
    [⟨"87f57fd47927af9d7347f19dd65a2759838eadd8", "doc", "tenantB", "hi", some "en", 0⟩]
    ⟨"87f57fd47927af9d7347f19dd65a2759838eadd8", "doc", "tenantA", "hi", none, 0⟩
    ⟨"87f57fd47927af9d7347f19dd65a2759838eadd8", "doc", "tenantB", "hi", some "en", 0⟩
    (by decide) (by decide) (by decide) (by decide) rfl rfl rfl

/-- C4: when the `pii_dq` stage of an ingest (fresh in the stage ledger)
detects at least one PII entity while the effective action is
`fail`/`reject` or `fail_on_pii` is set, the ingestion transitions to
FAILED with reason "PII policy violation", no later stage is enqueued,
and consequently no chunk rows are ever written for that ingest. -/
theorem pii_policy_violation_fails_ingest (c : Canonical) (pii_total : Nat)
    (dq_passed : Bool) (ingest_id tenant_id : String) (base : ChunkStrategy)
    (hfound : 0 < pii_total)
    (hpolicy : pii_action_of c.options = "fail" ∨ pii_action_of c.options = "reject" ∨
      fail_on_pii_of c.options = true) :
    (pii_dq_stage true c pii_total false dq_passed).failed = some "PII policy violation" ∧
    (pii_dq_stage true c pii_total false dq_passed).enqueued = none ∧
    chunks_after_pii_dq true c pii_total false dq_passed ingest_id tenant_id base = some [] := by
  have hcond : (decide (0 < pii_total) &&
      (decide (pii_action_of c.options = "fail") || decide (pii_action_of c.options = "reject") ||
        fail_on_pii_of c.options)) = true := by
    rcases hpolicy with h | h | h <;> simp [hfound, h]
  refine ⟨?_, ?_, ?_⟩ <;> simp [pii_dq_stage, chunks_after_pii_dq, hcond]

/-- Witness for C4: options requesting action `"FAIL"` (lowered to
`fail`) with two detected entities. -/
theorem pii_policy_violation_fails_ingest_witness :
    (pii_dq_stage true
      { doc_id := none, text := "Contact: a@b.com", lang := none,
        options := some
          { dq := some { pii := some { action := some "FAIL", mask := none, policy := none },
                         skip := none },
            ingest := some { fail_on_pii := some false, continue_on_warn := none } },
        chunk_strategy := none } 2 false true).failed = some "PII policy violation" ∧
    (pii_dq_stage true
      { doc_id := none, text := "Contact: a@b.com", lang := none,
        options := some
          { dq := some { pii := some { action := some "FAIL", mask := none, policy := none },
                         skip := none },
            ingest := some { fail_on_pii := some false, continue_on_warn := none } },
        chunk_strategy := none } 2 false true).enqueued = none ∧
    chunks_after_pii_dq true
      { doc_id := none, text := "Contact: a@b.com", lang := none,
        options := some
          { dq := some { pii := some { action := some "FAIL", mask := none, policy := none },
                         skip := none },
            ingest := some { fail_on_pii := some false, continue_on_warn := none } },
        chunk_strategy := none } 2 false true "ing1" "t1" ⟨some 700, some 80⟩ = some [] :=
  pii_policy_violation_fails_ingest _ 2 true "ing1" "t1" ⟨some 700, some 80⟩
    (by decide) (Or.inl (by decide))

/-! ### Risk signature and cache -/

/-- `store` followed by `read` of the same signature hits. -/
theorem assocLookup_cons_self {β : Type} (k : String) (v : β) (c : List (String × β)) :
    assocLookup ((k, v) :: c) k = some v := by
  simp [assocLookup]

/-- A run over a cache that does not hold the spec's signature is a
miss that invokes the simulator, whatever the simulator replies. -/
theorem risk_phase_miss (cache : List (String × SimPayload)) (spec : List (String × JVal))
    (v : String) (r : SimPayload)
    (h : assocLookup cache (risk_signature spec v) = none) :
    (risk_phase cache spec v r).cache_hit = false ∧
      (risk_phase cache spec v r).sim_invoked = true := by
  by_cases hre : r.error = none <;> constructor <;> simp [risk_phase, h, hre]

set_option maxRecDepth 100000 in
/-- C2: the risk signature is a deterministic function of
`(spec, data_version)`; after a run with a successful simulator reply, a
second run with the identical spec and data version is a cache hit
(`cache_hit = true`) and does not invoke the simulator; a run whose
signature differs from the first one's (and was not already cached) is
a cache miss that does invoke the simulator; and changing the spec's
revenue from 500000 to 600000 does yield a different signature. -/
theorem risk_signature_cache :
    (∀ (s1 s2 : List (String × JVal)) (v1 v2 : String), s1 = s2 → v1 = v2 →
      risk_signature s1 v1 = risk_signature s2 v2) ∧
    (∀ (cache : List (String × SimPayload)) (spec : List (String × JVal)) (v : String)
      (r r2 : SimPayload), r.error = none →
      (risk_phase (risk_phase cache spec v r).cache_out spec v r2).cache_hit = true ∧
      (risk_phase (risk_phase cache spec v r).cache_out spec v r2).sim_invoked = false) ∧
    (∀ (cache : List (String × SimPayload)) (spec spec2 : List (String × JVal)) (v v2 : String)
      (r r2 : SimPayload),
      risk_signature spec2 v2 ≠ risk_signature spec v →
      assocLookup cache (risk_signature spec2 v2) = none →
      (risk_phase (risk_phase cache spec v r).cache_out spec2 v2 r2).cache_hit = false ∧
      (risk_phase (risk_phase cache spec v r).cache_out spec2 v2 r2).sim_invoked = true) ∧
    risk_signature [("revenue", JVal.jint 500000)] "1.0" ≠
      risk_signature [("revenue", JVal.jint 600000)] "1.0" := by
  refine ⟨?_, ?_, ?_, ?_⟩
  · intro s1 s2 v1 v2 hs hv
    rw [hs, hv]
  · intro cache spec v r r2 herr
    cases hlk : assocLookup cache (risk_signature spec v) with
    | some cached => constructor <;> simp [risk_phase, hlk]
    | none => constructor <;> simp [risk_phase, hlk, herr, assocLookup]
  · intro cache spec spec2 v v2 r r2 hneq hmiss
    have hout : assocLookup (risk_phase cache spec v r).cache_out (risk_signature spec2 v2) = none := by
      cases hlk : assocLookup cache (risk_signature spec v) with
      | some cached => simpa [risk_phase, hlk] using hmiss
      | none =>
        by_cases hre : r.error = none
        · simp [risk_phase, hlk, hre, assocLookup, Ne.symm hneq, hmiss]
        · simp [risk_phase, hlk, hre, hmiss]
    exact risk_phase_miss _ spec2 v2 r2 hout
  · decide

/-- Witness for C2: a fresh cache, a successful simulator payload, one
run of the 500000-revenue spec, then a repeat (hit, no RPC) and a run of
the 600000-revenue spec (miss, RPC issued). -/
theorem risk_signature_cache_witness :
    ((risk_phase (risk_phase [] [("revenue", JVal.jint 500000)] "1.0" ⟨none, "stats"⟩).cache_out
        [("revenue", JVal.jint 500000)] "1.0" ⟨none, "stats"⟩).cache_hit = true ∧
      (risk_phase (risk_phase [] [("revenue", JVal.jint 500000)] "1.0" ⟨none, "stats"⟩).cache_out
        [("revenue", JVal.jint 500000)] "1.0" ⟨none, "stats"⟩).sim_invoked = false) ∧
    ((risk_phase (risk_phase [] [("revenue", JVal.jint 500000)] "1.0" ⟨none, "stats"⟩).cache_out
        [("revenue", JVal.jint 600000)] "1.0" ⟨none, "stats"⟩).cache_hit = false ∧
      (risk_phase (risk_phase [] [("revenue", JVal.jint 500000)] "1.0" ⟨none, "stats"⟩).cache_out
        [("revenue", JVal.jint 600000)] "1.0" ⟨none, "stats"⟩).sim_invoked = true) :=
  ⟨risk_signature_cache.2.1 [] [("revenue", JVal.jint 500000)] "1.0" ⟨none, "stats"⟩
      ⟨none, "stats"⟩ rfl,
   risk_signature_cache.2.2.1 [] [("revenue", JVal.jint 500000)] [("revenue", JVal.jint 600000)]
      "1.0" "1.0" ⟨none, "stats"⟩ ⟨none, "stats"⟩ (Ne.symm risk_signature_cache.2.2.2) rfl⟩

/-! ### Orchestrator evidence gate -/

/-- C1: whenever RAG is required and — after the short-chunk filter,
score-descending rerank, freshness ordering and deduplication — fewer
than 3 distinct doc ids score at least `RAG_SCORE_THRESHOLD`, the RAG
branch of `handle_query` returns the insufficient-evidence response:
text exactly `INSUFFICIENT EVIDENCE`, empty citations, and a
`rag_failure` telemetry flag among
NO_MATCHES / LOW_CONFIDENCE / INDEX_NOT_READY. -/
theorem handle_query_insufficient_evidence (st : RagSettings) (top_k : Nat) (bias : Bool)
    (hits : List Hit)
    (hcount : (high_quality_ids st (rag_pipeline st top_k bias hits)).length <
      RAG_REQUIRED_MIN_SOURCES) :
    ∃ r, rag_branch st top_k bias (.ok hits) = .insufficient r ∧
      r.text = "INSUFFICIENT EVIDENCE" ∧ r.citations = [] ∧
      r.rag_failure ∈ ["NO_MATCHES", "LOW_CONFIDENCE", "INDEX_NOT_READY"] := by
  refine ⟨build_insufficient_response
      (if (rag_pipeline st top_k bias hits).isEmpty then "NO_MATCHES" else "LOW_CONFIDENCE"),
    ?_, rfl, rfl, ?_⟩
  · simp only [rag_branch]
    rw [if_neg (by omega)]
  · by_cases h : (rag_pipeline st top_k bias hits).isEmpty <;>
      simp [h, build_insufficient_response]

/-- Witness for C1: an empty hit list (no document can reach the
threshold) under an integer-valued threshold. -/
theorem handle_query_insufficient_evidence_witness :
    ∃ r, rag_branch ⟨1, 5, 0⟩ 12 false (.ok []) = .insufficient r ∧
      r.text = "INSUFFICIENT EVIDENCE" ∧ r.citations = [] ∧
      r.rag_failure ∈ ["NO_MATCHES", "LOW_CONFIDENCE", "INDEX_NOT_READY"] :=
  handle_query_insufficient_evidence ⟨1, 5, 0⟩ 12 false [] (by decide)

/-! ### Retriever per-doc cap -/

/-- Monotonicity of `countP` under a pointwise implication. -/
theorem countP_imp {α : Type} (p q : α → Bool) (h : ∀ a, p a = true → q a = true) :
    ∀ l : List α, l.countP p ≤ l.countP q := by
  intro l
  induction l with
  | nil => simp
  | cons x xs ih =>
    simp only [List.countP_cons]
    by_cases hx : p x = true
    · rw [if_pos hx, if_pos (h x hx)]
      omega
    · rw [if_neg hx]
      by_cases hq : q x = true
      · rw [if_pos hq]
        omega
      · rw [if_neg hq]
        omega

/-- The cap loop keeps at most `cap - counts[key]` hits of a given cap
key. -/
theorem cap_fold_countP (cap : Nat) (key : String) :
    ∀ (l : List RDoc) (counts : List (String × Nat)),
      (cap_fold cap counts l).countP (fun h => decide (capKey h = key)) ≤
        cap - (assocLookup counts key).getD 0 := by
  intro l
  induction l with
  | nil => intro counts; simp [cap_fold]
  | cons h rest ih =>
    intro counts
    simp only [cap_fold]
    by_cases hge : cap ≤ (assocLookup counts (capKey h)).getD 0
    · rw [if_pos hge]
      exact ih counts
    · rw [if_neg hge]
      simp only [List.countP_cons]
      by_cases hk : capKey h = key
      · have hlook : assocLookup ((capKey h, (assocLookup counts (capKey h)).getD 0 + 1) :: counts)
            key = some ((assocLookup counts (capKey h)).getD 0 + 1) := by
          simp [assocLookup, hk]
        have hrec := ih ((capKey h, (assocLookup counts (capKey h)).getD 0 + 1) :: counts)
        rw [hlook] at hrec
        rw [if_pos (by simp [hk])]
        simp only [Option.getD_some] at hrec
        rw [hk] at hrec hge ⊢
        omega
      · have hlook : assocLookup ((capKey h, (assocLookup counts (capKey h)).getD 0 + 1) :: counts)
            key = assocLookup counts key := by
          simp [assocLookup, hk]
        have hrec := ih ((capKey h, (assocLookup counts (capKey h)).getD 0 + 1) :: counts)
        rw [hlook] at hrec
        rw [if_neg (by simp [hk])]
        omega

/-- Hits surviving the cap loop come from its input. -/
theorem cap_fold_subset (cap : Nat) :
    ∀ (l : List RDoc) (counts : List (String × Nat)) (h : RDoc),
      h ∈ cap_fold cap counts l → h ∈ l := by
  intro l
  induction l with
  | nil =>
    intro counts h hh
    simp [cap_fold] at hh
  | cons x rest ih =>
    intro counts h hh
    simp only [cap_fold] at hh
    revert hh
    split
    · intro hh
      exact List.mem_cons_of_mem _ (ih _ _ hh)
    · intro hh
      rcases List.mem_cons.mp hh with hh' | hh'
      · exact hh' ▸ List.mem_cons_self _ _
      · exact List.mem_cons_of_mem _ (ih _ _ hh')

/-- Membership through `insertSorted`. -/
theorem mem_insertSorted {α : Type} (le : α → α → Bool) (x a : α) :
    ∀ l, a ∈ insertSorted le x l ↔ a = x ∨ a ∈ l := by
  intro l
  induction l with
  | nil => simp [insertSorted]
  | cons y ys ih =>
    simp only [insertSorted]
    split
    · simp only [List.mem_cons]
    · simp only [List.mem_cons, ih]
      tauto

/-- The stable sort is a permutation at the level of membership. -/
theorem mem_stableSort {α : Type} (le : α → α → Bool) :
    ∀ (l : List α) (a : α), a ∈ stableSort le l ↔ a ∈ l := by
  intro l
  induction l with
  | nil => intro a; simp [stableSort]
  | cons x xs ih =>
    intro a
    simp only [stableSort, mem_insertSorted, ih, List.mem_cons]

/-- Reranker score assignment only rewrites `rerank_score`; every output
hit shares its `doc_id` with an input hit. -/
theorem assignRerank_doc_id :
    ∀ (l : List RDoc) (s : List ℚ) (h : RDoc), h ∈ assignRerank l s →
      ∃ h0 ∈ l, h.doc_id = h0.doc_id := by
  intro l
  induction l with
  | nil =>
    intro s h hh
    cases s <;> simp [assignRerank] at hh
  | cons x xs ih =>
    intro s h hh
    cases s with
    | nil => exact ⟨h, by simpa [assignRerank] using hh, rfl⟩
    | cons sc ss =>
      simp only [assignRerank] at hh
      rcases List.mem_cons.mp hh with hh' | hh'
      · exact ⟨x, List.mem_cons_self _ _, by rw [hh']⟩
      · obtain ⟨h0, hh0, he⟩ := ih ss h hh'
        exact ⟨h0, List.mem_cons_of_mem _ hh0, he⟩

/-- The source filter only discards hits. -/
theorem source_filter_mem (es : Option String) (l : List RDoc) (h : RDoc)
    (hh : h ∈ source_filter es l) : h ∈ l := by
  cases es with
  | none => exact hh
  | some src => exact (List.mem_filter.mp hh).1

/-- Filename scoping only discards hits. -/
theorem file_scope_mem (fh : List String) (l : List RDoc) (h : RDoc)
    (hh : h ∈ file_scope fh l) : h ∈ l := by
  simp only [file_scope] at hh
  revert hh
  split
  · exact id
  · split
    · exact id
    · intro hh
      exact (List.mem_filter.mp hh).1

/-- `retrieve` unfolded into its stages. -/
theorem retrieve_eq (st : RetrSettings) (es : Option String) (fh : List String)
    (rs : List ℚ) (bm25 vec : List RDoc) (top_k : Option Int) :
    retrieve st es fh rs bm25 vec top_k =
      pySlice
        (cap_fold (max 1 st.retrieval_per_doc_cap).toNat []
          (stableSort
            (fun x y =>
              decide (y.rerank_score < x.rerank_score) ||
                (decide (y.rerank_score = x.rerank_score) &&
                  decide (combined_score y ≤ combined_score x)))
            (assignRerank (file_scope fh (source_filter es (merge_hits bm25 vec))) rs)))
        0 (pyOrInt top_k st.retrieval_top_k) := rfl

/-- A Python slice is a sublist of its base list. -/
theorem pySlice_sublist {α : Type} (l : List α) (a b : Int) :
    (pySlice l a b).Sublist l := by
  simp only [pySlice]
  exact ((l.drop _).take_sublist _).trans (l.drop_sublist _)

/-- A slice `l[0:n]` with `0 < n` holds at most `n` elements. -/
theorem pySlice_length_le {α : Type} (l : List α) (n : Int) (hn : 0 < n) :
    ((pySlice l 0 n).length : Int) ≤ n := by
  simp only [pySlice]
  rw [if_neg (by omega : ¬ (0 : Int) < 0), if_neg (by omega : ¬ n < 0)]
  have h0 : (0 : Int) ≤ Int.ofNat l.length := Int.natCast_nonneg _
  have h1 : min (0 : Int) (Int.ofNat l.length) = 0 := min_eq_left h0
  rw [h1]
  have h2 : (0 : Int) ≤ min n (Int.ofNat l.length) := le_min (le_of_lt hn) h0
  have h3 : ((min n (Int.ofNat l.length) - 0).toNat : Int) = min n (Int.ofNat l.length) := by
    rw [sub_zero]
    exact Int.toNat_of_nonneg h2
  have h4 : ((l.drop (0 : Int).toNat).take (min n (Int.ofNat l.length) - 0).toNat).length ≤
      (min n (Int.ofNat l.length) - 0).toNat := List.length_take_le _ _
  have h5 : min n (Int.ofNat l.length) ≤ n := min_le_left _ _
  omega

/-- C7 (amended: the per-doc bound is per non-empty `doc_id` — hits with
an empty `doc_id` are capped under their `source`/`chunk_id` fallback
key — and the output length is bounded by the requested `top_k` when it
is positive; a `top_k` of `None` or `0` falls back to the configured
default, as the counterexample shows): the hit list `retrieve` returns
holds at most K hits per non-empty doc id (K the per-doc cap, floored at
1), at most `top_k` hits in total, and when a single non-empty doc id
supplies every merged hit, at most K hits altogether. -/
theorem retrieve_per_doc_cap (st : RetrSettings) (es : Option String)
    (fh : List String) (rs : List ℚ) (bm25 vec : List RDoc) (top_k : Option Int) :
    (∀ d : String, d ≠ "" →
      (retrieve st es fh rs bm25 vec top_k).countP (fun h => decide (h.doc_id = d)) ≤
        (max 1 st.retrieval_per_doc_cap).toNat) ∧
    (∀ n : Int, top_k = some n → 0 < n →
      ((retrieve st es fh rs bm25 vec top_k).length : Int) ≤ n) ∧
    (∀ d : String, d ≠ "" → (∀ h ∈ merge_hits bm25 vec, h.doc_id = d) →
      (retrieve st es fh rs bm25 vec top_k).length ≤ (max 1 st.retrieval_per_doc_cap).toNat) := by
  rw [retrieve_eq st es fh rs bm25 vec top_k]
  set sorted := stableSort
    (fun x y =>
      decide (y.rerank_score < x.rerank_score) ||
        (decide (y.rerank_score = x.rerank_score) &&
          decide (combined_score y ≤ combined_score x)))
    (assignRerank (file_scope fh (source_filter es (merge_hits bm25 vec))) rs) with hsorted
  set capped := cap_fold (max 1 st.retrieval_per_doc_cap).toNat [] sorted with hcapped
  have hcapbound : ∀ d : String, d ≠ "" →
      capped.countP (fun h => decide (h.doc_id = d)) ≤ (max 1 st.retrieval_per_doc_cap).toNat := by
    intro d hd
    calc capped.countP (fun h => decide (h.doc_id = d))
        ≤ capped.countP (fun h => decide (capKey h = d)) := by
          apply countP_imp
          intro a ha
          have hda : a.doc_id = d := of_decide_eq_true ha
          simp [capKey, hda, hd]
      _ ≤ (max 1 st.retrieval_per_doc_cap).toNat - (assocLookup [] d).getD 0 := by
          rw [hcapped]
          exact cap_fold_countP _ d sorted []
      _ ≤ (max 1 st.retrieval_per_doc_cap).toNat := by simp [assocLookup]
  refine ⟨?_, ?_, ?_⟩
  · intro d hd
    calc (pySlice capped 0 (pyOrInt top_k st.retrieval_top_k)).countP
          (fun h => decide (h.doc_id = d))
        ≤ capped.countP (fun h => decide (h.doc_id = d)) :=
          (pySlice_sublist capped 0 _).countP_le _
      _ ≤ (max 1 st.retrieval_per_doc_cap).toNat := hcapbound d hd
  · intro n hn hpos
    subst hn
    have hor : pyOrInt (some n) st.retrieval_top_k = n := by
      simp only [pyOrInt]
      rw [if_pos (by omega)]
    rw [hor]
    exact pySlice_length_le capped n hpos
  · intro d hd hall
    have hmemcap : ∀ h ∈ capped, h.doc_id = d := by
      intro h hh
      rw [hcapped] at hh
      have h1 : h ∈ sorted := cap_fold_subset _ sorted [] h hh
      rw [hsorted] at h1
      have h2 := (mem_stableSort _ _ h).mp h1
      obtain ⟨h0, hh0, hdoc⟩ := assignRerank_doc_id _ rs h h2
      have h3 : h0 ∈ merge_hits bm25 vec :=
        source_filter_mem es _ h0 (file_scope_mem fh _ h0 hh0)
      rw [hdoc]
      exact hall h0 h3
    have hlen : capped.length = capped.countP (fun h => decide (h.doc_id = d)) := by
      symm
      rw [List.countP_eq_length]
      intro a ha
      exact decide_eq_true (hmemcap a ha)
    calc (pySlice capped 0 (pyOrInt top_k st.retrieval_top_k)).length
        ≤ capped.length := (pySlice_sublist capped 0 _).length_le
      _ = capped.countP (fun h => decide (h.doc_id = d)) := hlen
      _ ≤ (max 1 st.retrieval_per_doc_cap).toNat := hcapbound d hd

/-- C7 counterexample: three hits with `doc_id = ""` but distinct
sources all survive the per-doc cap of 2 (the cap keys by the
source/chunk fallback, not the doc id), and the requested `top_k = 0`
is a falsy value that Python's `or` replaces with the default of 5, so
the output holds 3 hits — more than 2 for the single (empty) doc id and
more than the requested `top_k`. -/
theorem retrieve_per_doc_cap_counterexample :
    (retrieve ⟨30, 5, 2⟩ none [] []
        [⟨"", "c1", "", "s1", none, 0, 0, 0⟩, ⟨"", "c2", "", "s2", none, 0, 0, 0⟩,
         ⟨"", "c3", "", "s3", none, 0, 0, 0⟩] [] (some 0)).length = 3 ∧
    (retrieve ⟨30, 5, 2⟩ none [] []
        [⟨"", "c1", "", "s1", none, 0, 0, 0⟩, ⟨"", "c2", "", "s2", none, 0, 0, 0⟩,
         ⟨"", "c3", "", "s3", none, 0, 0, 0⟩] [] (some 0)).countP
      (fun h => decide (h.doc_id = "")) = 3 ∧
    ¬ ((3 : Nat) ≤ 2) ∧ ¬ ((3 : Int) ≤ 0) := by
  refine ⟨by decide, by decide, by decide, by decide⟩

/-- Witness for C7: two single-doc hits under cap 2 with `top_k = 4`. -/
theorem retrieve_per_doc_cap_witness :
    ((retrieve ⟨30, 5, 2⟩ none [] []
        [⟨"d", "c1", "", "", none, 0, 0, 0⟩, ⟨"d", "c2", "", "", none, 0, 0, 0⟩,
         ⟨"d", "c3", "", "", none, 0, 0, 0⟩] [] (some 4)).countP
      (fun h => decide (h.doc_id = "d")) ≤ (max 1 (2 : Int)).toNat) ∧
    (((retrieve ⟨30, 5, 2⟩ none [] []
        [⟨"d", "c1", "", "", none, 0, 0, 0⟩, ⟨"d", "c2", "", "", none, 0, 0, 0⟩,
         ⟨"d", "c3", "", "", none, 0, 0, 0⟩] [] (some 4)).length : Int) ≤ 4) ∧
    ((retrieve ⟨30, 5, 2⟩ none [] []
        [⟨"d", "c1", "", "", none, 0, 0, 0⟩, ⟨"d", "c2", "", "", none, 0, 0, 0⟩,
         ⟨"d", "c3", "", "", none, 0, 0, 0⟩] [] (some 4)).length ≤ (max 1 (2 : Int)).toNat) :=
  ⟨(retrieve_per_doc_cap ⟨30, 5, 2⟩ none [] [] _ [] (some 4)).1 "d" (by decide),
   (retrieve_per_doc_cap ⟨30, 5, 2⟩ none [] [] _ [] (some 4)).2.1 4 rfl (by decide),
   (retrieve_per_doc_cap ⟨30, 5, 2⟩ none [] [] _ [] (some 4)).2.2 "d" (by decide) (by decide)⟩
